import Mathlib

/-!
Verification development for the server connection core
(`src/lightyear/src/server/connection.rs`): `Connection` and
`ConnectionManager`, their input buffering, replication ack correlation,
message fan-out and event accumulation.

The code under `src` is embedded directly.  Collaborators that live outside
the given sources (the channel transport / `MessageManager`, the
`InputBuffer`, the `ReplicationSender`/`ReplicationReceiver` and the
`PingManager`) are modelled from the specification; each such definition
carries a doc comment starting with `Modelled from the spec:`.
-/

namespace Lightyear

/-! ## Embedded definitions, spec models and concrete fixtures -/

abbrev Tick := Nat

abbrev ClientId := Nat

abbrev MessageId := Nat

abbrev ChannelKind := Nat

abbrev GroupId := Nat

abbrev Entity := Nat

abbrev Input := Nat

/-- The channel kind of the `EntityUpdatesChannel` (a fixed registered channel). -/
def EntityUpdatesChannelKind : ChannelKind := 0

/-- The channel kind of the `PingChannel` (a fixed registered channel). -/
def PingChannelKind : ChannelKind := 1

/-- Error taxonomy of the spec: `NotFound`, `TransportFailure`,
`InvariantViolation` (a panic such as a failed `expect`). -/
inductive TErr
  | notFound
  | transportFailure
  | invariantViolation
deriving DecidableEq

/-- `NetworkTarget`: predicate describing which peers receive a message. -/
inductive NetworkTarget
  | all
  | allExcept (ids : List ClientId)
  | only (ids : List ClientId)
  | none
deriving DecidableEq

/-- Modelled from the spec: `should_send_to` decides whether a peer matches the target. -/
def NetworkTarget.should_send_to : NetworkTarget → ClientId → Bool
  | .all, _ => true
  | .allExcept ids, id => !(ids.contains id)
  | .only ids, id => ids.contains id
  | .none, _ => false

/-- The `InputMessageKind` classification of an application message. -/
inductive InputMessageKind
  | leafwing
  | native
  | none
deriving DecidableEq

/-- An application message (the protocol-generic `P::Message`).  The payload is
opaque; `entities` are the embedded entity references subject to remapping, and
for a native input message `inputTick`/`inputVal` are the carried input. -/
structure AppMessage where
  payload : Nat
  entities : List Entity
  kind : InputMessageKind
  inputTick : Tick
  inputVal : Input
deriving DecidableEq

/-- Remapping of one entity reference through the remote-entity map (an entity
absent from the map is left as-is). -/
def remapEntity (em : List (Entity × Entity)) (e : Entity) : Entity :=
  match em.find? (fun p => p.1 == e) with
  | Option.some p => p.2
  | Option.none => e

/-- Modelled from the spec: `map_entities` remaps embedded entity references
through the receiver's remote-entity map. -/
def AppMessage.map_entities (m : AppMessage) (em : List (Entity × Entity)) : AppMessage :=
  { m with entities := m.entities.map (remapEntity em) }

/-- `ReplicationMessageData`: `Actions` (structural) or `Updates` (value diffs). -/
inductive ReplicationMessageData
  | actions (payload : Nat)
  | updates (payload : Nat)
deriving DecidableEq

structure ReplicationMessage where
  group_id : GroupId
  data : ReplicationMessageData
deriving DecidableEq

structure Ping where
  id : Nat
deriving DecidableEq

structure Pong where
  ping_id : Nat
  ping_received_time : Nat
  pong_sent_time : Nat
deriving DecidableEq

inductive SyncMessage
  | ping (p : Ping)
  | pong (p : Pong)
deriving DecidableEq

/-- A message received from a client. -/
inductive ClientMessage
  | message (m : AppMessage) (target : NetworkTarget)
  | replication (r : ReplicationMessage)
  | sync (s : SyncMessage)
deriving DecidableEq

/-- A message sent by the server. -/
inductive ServerMessage
  | message (m : AppMessage)
  | replication (r : ReplicationMessage)
  | sync (s : SyncMessage)
deriving DecidableEq

/-- What actually goes through the transport's send buffer: `buffer_message` and
`send_packets` wrap `ServerMessage`, while `buffer_replication_messages` in the
source wraps `ClientMessage::Replication`. -/
inductive WireMessage
  | server (m : ServerMessage)
  | client (m : ClientMessage)
deriving DecidableEq

structure TimeManager where
  now : Nat
  ready_to_send : Bool
deriving DecidableEq

def TimeManager.is_ready_to_send (tm : TimeManager) : Bool := tm.ready_to_send

def TimeManager.current_time (tm : TimeManager) : Nat := tm.now

structure TickManager where
  tick : Tick
deriving DecidableEq

def TickManager.current_tick (tm : TickManager) : Tick := tm.tick

structure PingConfig where
  ping_interval_ms : Nat
deriving DecidableEq

/-- Modelled from the spec: the per-channel settings the registry records for a
channel: whether its sender returns a `MessageId` on send, whether the sender
supports acknowledgment subscription, and its diagnostic name. -/
structure ChannelSettings where
  gives_message_id : Bool
  supports_ack_subscription : Bool
  channel_name : String
deriving DecidableEq

/-- Modelled from the spec: the channel registry, a finite map from channel
kind to its settings. -/
structure ChannelRegistry where
  channels : List (ChannelKind × ChannelSettings)
deriving DecidableEq

def ChannelRegistry.lookup (r : ChannelRegistry) (ch : ChannelKind) : Option ChannelSettings :=
  (r.channels.find? (fun p => p.1 == ch)).map (·.2)

def ChannelRegistry.name (r : ChannelRegistry) (ch : ChannelKind) : Option String :=
  (r.lookup ch).map (·.channel_name)

/-- A decoded wire packet: the tick it was sent at, the message ids it
acknowledges, and the channel messages it carries. -/
structure Packet where
  sent_tick : Tick
  acked_ids : List MessageId
  contents : List (ChannelKind × List (Tick × ClientMessage))
deriving DecidableEq

/-- Modelled from the spec: the channel transport handle (`MessageManager`).
`outbox` holds buffered outbound messages, `inbox` the received channel
messages grouped by channel, `pending_acks` the acknowledgments observed by the
transport since they were last drained by `recv_update_acks`, and
`next_message_id` the transport-assigned id counter.  `send_fails` injects a
`TransportFailure` on send. -/
structure MessageManager where
  channel_registry : ChannelRegistry
  send_fails : Bool
  next_message_id : MessageId
  outbox : List (ChannelKind × WireMessage)
  inbox : List (ChannelKind × List (Tick × ClientMessage))
  pending_acks : List MessageId
deriving DecidableEq

def MessageManager.new (r : ChannelRegistry) : MessageManager :=
  { channel_registry := r, send_fails := false, next_message_id := 0,
    outbox := [], inbox := [], pending_acks := [] }

/-- Modelled from the spec: `buffer_send(envelope, channel) → Result<Option<MessageId>>`.
A send on an unregistered channel or with a failing transport is a
`TransportFailure`; otherwise the message is enqueued and a fresh `MessageId`
is returned exactly when the channel's sender gives message ids. -/
def MessageManager.buffer_send (mm : MessageManager) (msg : WireMessage) (ch : ChannelKind) :
    Except TErr (Option MessageId × MessageManager) :=
  match mm.channel_registry.lookup ch with
  | Option.none => .error .transportFailure
  | Option.some cfg =>
    if mm.send_fails then .error .transportFailure
    else if cfg.gives_message_id then
      .ok (some mm.next_message_id,
        { mm with next_message_id := mm.next_message_id + 1, outbox := mm.outbox ++ [(ch, msg)] })
    else .ok (Option.none, { mm with outbox := mm.outbox ++ [(ch, msg)] })

/-- Modelled from the spec: `read_messages` drains the received channel messages. -/
def MessageManager.read_messages (mm : MessageManager) :
    List (ChannelKind × List (Tick × ClientMessage)) × MessageManager :=
  (mm.inbox, { mm with inbox := [] })

/-- Modelled from the spec: decode one packet from the reader, delivering its
channel messages and recording the acknowledgments it carries; returns the tick
the packet was sent at. -/
def MessageManager.recv_packet (mm : MessageManager) (reader : List Packet) :
    Except TErr (Tick × MessageManager × List Packet) :=
  match reader with
  | [] => .error .transportFailure
  | p :: rest =>
    .ok (p.sent_tick,
      { mm with inbox := mm.inbox ++ p.contents,
                pending_acks := mm.pending_acks ++ p.acked_ids },
      rest)

/-- Modelled from the spec: `send_packets` materializes all buffered messages
into wire payloads. -/
def MessageManager.send_packets (mm : MessageManager) (_tick : Tick) :
    List (ChannelKind × WireMessage) × MessageManager :=
  (mm.outbox, { mm with outbox := [] })

/-- Modelled from the spec: the per-peer `InputBuffer`, a finite map from tick
to input.  A repeated arrival for the same tick overwrites; arrivals for ticks
at or before the last consumed tick are ignored (per §8 the fallback property
must survive arbitrary out-of-order arrival); `pop` consumes everything up to
the queried tick and performs the fallback lookup returning the most recent
value at or before the queried tick. -/
structure InputBuffer where
  entries : List (Tick × Input)
  next_tick : Tick
deriving DecidableEq

def InputBuffer.empty : InputBuffer := { entries := [], next_tick := 0 }

/-- The entry with the largest tick satisfying `p` (ties broken towards the
later list position, irrelevant for deduplicated buffers). -/
def bestEntry (p : Nat → Bool) : List (Tick × Input) → Option (Tick × Input)
  | [] => Option.none
  | e :: l =>
    match bestEntry p l with
    | Option.none => if p e.1 then some e else Option.none
    | Option.some a => if p e.1 then (if a.1 < e.1 then some e else some a) else some a

/-- Modelled from the spec: merging one received native input into the buffer,
indexed by the tick it was produced for. -/
def InputBuffer.update_from_message (b : InputBuffer) (t : Tick) (i : Input) : InputBuffer :=
  if t < b.next_tick then b
  else { b with entries := (t, i) :: b.entries.filter (fun e => decide (e.1 ≠ t)) }

/-- Modelled from the spec: `pop(tick)` returns the most recent recorded input
at or before `tick` and consumes all entries up to `tick`. -/
def InputBuffer.pop (b : InputBuffer) (t : Tick) : Option Input × InputBuffer :=
  ((bestEntry (fun x => decide (x ≤ t)) b.entries).map (·.2),
   { entries := b.entries.filter (fun e => decide (t < e.1)), next_tick := t + 1 })

/-- Modelled from the spec: the replication sender.  `to_finalize` is the
finalized diff queue drained by `finalize`, `updates_message_id_to_group_id`
the ack-correlation map, `pruned_groups` the groups for which superseded diffs
were pruned after an acknowledgment. -/
structure ReplicationSender where
  to_finalize : List (ChannelKind × GroupId × ReplicationMessageData)
  updates_message_id_to_group_id : List (MessageId × GroupId)
  pruned_groups : List GroupId
deriving DecidableEq

def ReplicationSender.new : ReplicationSender :=
  { to_finalize := [], updates_message_id_to_group_id := [], pruned_groups := [] }

/-- Modelled from the spec: `finalize(tick)` drains the pending finalized diffs. -/
def ReplicationSender.finalize (rs : ReplicationSender) (_tick : Tick) :
    List (ChannelKind × GroupId × ReplicationMessageData) × ReplicationSender :=
  (rs.to_finalize, { rs with to_finalize := [] })

/-- Modelled from the spec: `recv_update_acks` consumes the acknowledgments
observed since the previous call; each acknowledged `MessageId` present in the
correlation map is removed (and no other entry is), and its group is recorded
as pruned. -/
def ReplicationSender.recv_update_acks (rs : ReplicationSender) (acks : List MessageId)
    (_bevy_tick : Nat) : ReplicationSender :=
  { rs with
    updates_message_id_to_group_id :=
      rs.updates_message_id_to_group_id.filter (fun e => !(acks.contains e.1)),
    pruned_groups := rs.pruned_groups ++
      ((rs.updates_message_id_to_group_id.filter (fun e => acks.contains e.1)).map (·.2)) }

/-- Modelled from the spec: the replication receiver: the remote-entity map and
the received, not yet applied, replication messages. -/
structure ReplicationReceiver where
  remote_entity_map : List (Entity × Entity)
  received : List (GroupId × Tick × ReplicationMessageData)
deriving DecidableEq

def ReplicationReceiver.new : ReplicationReceiver :=
  { remote_entity_map := [], received := [] }

def ReplicationReceiver.recv_message (rr : ReplicationReceiver) (r : ReplicationMessage)
    (tick : Tick) : ReplicationReceiver :=
  { rr with received := rr.received ++ [(r.group_id, tick, r.data)] }

def ReplicationReceiver.read_messages (rr : ReplicationReceiver) :
    List (GroupId × Tick × ReplicationMessageData) × ReplicationReceiver :=
  (rr.received, { rr with received := [] })

/-- The world state the replication diffs are applied to: the ordered list of
applied `(group, data)` diffs. -/
abbrev World := List (GroupId × ReplicationMessageData)

/-- Modelled from the spec: the ping synchronizer.  `ping_timer_ready` is the
poll deciding whether a ping is due, `pending_pongs` the pongs constructed on
ping receipt and not yet flushed. -/
structure PingManager where
  config : PingConfig
  ping_timer_ready : Bool
  next_ping_id : Nat
  ping_sent_times : List (Nat × Nat)
  pending_pongs : List Pong
  last_processed_pong : Option (Pong × Nat)
deriving DecidableEq

def PingManager.new (cfg : PingConfig) : PingManager :=
  { config := cfg, ping_timer_ready := false, next_ping_id := 0,
    ping_sent_times := [], pending_pongs := [], last_processed_pong := Option.none }

/-- Modelled from the spec: drains at most one outbound ping, timestamped at
the actual send time. -/
def PingManager.maybe_prepare_ping (pm : PingManager) (tm : TimeManager) :
    Option Ping × PingManager :=
  if pm.ping_timer_ready then
    (some { id := pm.next_ping_id },
     { pm with ping_timer_ready := false, next_ping_id := pm.next_ping_id + 1,
               ping_sent_times := pm.ping_sent_times ++ [(pm.next_ping_id, tm.current_time)] })
  else (Option.none, pm)

/-- Modelled from the spec: a received `Ping` constructs a pending pong, not
sent yet; its recorded send time is provisional (construction time) and is
overwritten at flush time. -/
def PingManager.buffer_pending_pong (pm : PingManager) (ping : Ping) (tm : TimeManager) :
    PingManager :=
  { pm with pending_pongs := pm.pending_pongs ++
      [{ ping_id := ping.id, ping_received_time := tm.current_time,
         pong_sent_time := tm.current_time }] }

def PingManager.take_pending_pongs (pm : PingManager) : List Pong × PingManager :=
  (pm.pending_pongs, { pm with pending_pongs := [] })

/-- Modelled from the spec: a received `Pong` updates the RTT/offset estimate. -/
def PingManager.process_pong (pm : PingManager) (pong : Pong) (tm : TimeManager) : PingManager :=
  { pm with last_processed_pong := some (pong, tm.current_time) }

/-- The per-connection event accumulator. -/
structure ConnectionEvents where
  has_connection : Bool
  messages : List (ChannelKind × AppMessage)
  input_messages : List AppMessage
  replication_events : List (GroupId × ReplicationMessageData)
deriving DecidableEq

def ConnectionEvents.new : ConnectionEvents :=
  { has_connection := false, messages := [], input_messages := [], replication_events := [] }

def ConnectionEvents.push_connection (ev : ConnectionEvents) : ConnectionEvents :=
  { ev with has_connection := true }

def ConnectionEvents.push_message (ev : ConnectionEvents) (ch : ChannelKind) (m : AppMessage) :
    ConnectionEvents :=
  { ev with messages := ev.messages ++ [(ch, m)] }

def ConnectionEvents.push_input_message (ev : ConnectionEvents) (m : AppMessage) :
    ConnectionEvents :=
  { ev with input_messages := ev.input_messages ++ [m] }

def ConnectionEvents.push_replication (ev : ConnectionEvents) (g : GroupId)
    (d : ReplicationMessageData) : ConnectionEvents :=
  { ev with replication_events := ev.replication_events ++ [(g, d)] }

/-- Modelled from the spec: applying one replication diff to the world emits
the corresponding events and appends the diff to the world's applied list. -/
def ReplicationReceiver.apply_world (_rr : ReplicationReceiver) (w : World) (g : GroupId)
    (d : ReplicationMessageData) (ev : ConnectionEvents) : World × ConnectionEvents :=
  (w ++ [(g, d)], ev.push_replication g d)

/-- The connection between the server and one client
(`Connection<P>` in `server/connection.rs`). -/
structure Connection where
  message_manager : MessageManager
  replication_sender : ReplicationSender
  replication_receiver : ReplicationReceiver
  events : ConnectionEvents
  ping_manager : PingManager
  input_buffer : InputBuffer
  last_input : Option Input
  messages_to_rebroadcast : List (AppMessage × NetworkTarget × ChannelKind)
deriving DecidableEq

/-- `Connection::new`: creates the message manager, subscribes to the
`EntityUpdatesChannel` acks (panicking — `none` — if the channel is not
registered or its sender does not support ack subscription), and initializes
everything else empty. -/
def Connection.new (channel_registry : ChannelRegistry) (ping_config : PingConfig) :
    Option Connection :=
  match channel_registry.lookup EntityUpdatesChannelKind with
  | Option.none => Option.none
  | Option.some cfg =>
    if cfg.supports_ack_subscription then
      some { message_manager := MessageManager.new channel_registry
           , replication_sender := ReplicationSender.new
           , replication_receiver := ReplicationReceiver.new
           , events := ConnectionEvents.new
           , ping_manager := PingManager.new ping_config
           , input_buffer := InputBuffer.empty
           , last_input := Option.none
           , messages_to_rebroadcast := [] }
    else Option.none

/-- `Connection::buffer_message`: resolve the channel name for diagnostics
(falling back to a sentinel), wrap in `ServerMessage::Message`, forward to the
transport's send buffer. -/
def Connection.buffer_message (c : Connection) (message : AppMessage) (channel : ChannelKind) :
    Except TErr Connection :=
  let _channel_name := (c.message_manager.channel_registry.name channel).getD ("unknown")
  let msg := WireMessage.server (ServerMessage.message message)
  match c.message_manager.buffer_send msg channel with
  | .error e => .error e
  | .ok (_, mm) => .ok { c with message_manager := mm }

/-- One step of `Connection::buffer_replication_messages`: wrap one finalized
`(channel, group, data)` triple as `ClientMessage::Replication`, send it,
`expect` a `MessageId` (an `InvariantViolation` panic if the channel returns
none), and record the id against the group only for `Updates` data. -/
def Connection.sendReplicationOne (c : Connection)
    (e : ChannelKind × GroupId × ReplicationMessageData) : Except TErr Connection :=
  let channel := e.1
  let group_id := e.2.1
  let message_data := e.2.2
  let should_track_ack := match message_data with
    | ReplicationMessageData.updates _ => true
    | _ => false
  let _channel_name := (c.message_manager.channel_registry.name channel).getD ("unknown")
  let msg := WireMessage.client (ClientMessage.replication
    { group_id := group_id, data := message_data })
  match c.message_manager.buffer_send msg channel with
  | .error err => .error err
  | .ok (opt_id, mm) =>
    match opt_id with
    | Option.none => .error .invariantViolation
    | Option.some message_id =>
      let c1 := { c with message_manager := mm }
      if should_track_ack then
        .ok { c1 with replication_sender :=
          { c1.replication_sender with updates_message_id_to_group_id :=
              c1.replication_sender.updates_message_id_to_group_id ++ [(message_id, group_id)] } }
      else .ok c1

/-- `Connection::buffer_replication_messages`: drain the finalized diff queue
for the tick and send every triple. -/
def Connection.buffer_replication_messages (c : Connection) (tick : Tick) :
    Except TErr Connection :=
  let (msgs, rs) := c.replication_sender.finalize tick
  msgs.foldlM Connection.sendReplicationOne { c with replication_sender := rs }

/-- One pending pong flushed inside `Connection::send_packets`: its recorded
send time is overwritten with the current time immediately before buffering. -/
def Connection.sendPongStep (now : Nat) (conn : Connection) (pong : Pong) :
    Except TErr Connection :=
  let pong2 := { pong with pong_sent_time := now }
  match conn.message_manager.buffer_send
      (WireMessage.server (ServerMessage.sync (SyncMessage.pong pong2)))
      PingChannelKind with
  | .error e => .error e
  | .ok (_, mm) => .ok { conn with message_manager := mm }

/-- `Connection::send_packets`: if the transport is ready to send, drain at
most one ping and all pending pongs (overwriting each pong's recorded send
time immediately before buffering), then materialize all buffered messages
into payloads. -/
def Connection.send_packets (c : Connection) (time_manager : TimeManager)
    (tick_manager : TickManager) : Except TErr (List (ChannelKind × WireMessage) × Connection) :=
  let sync_phase : Except TErr Connection :=
    if time_manager.is_ready_to_send then
      let (maybe_ping, pm) := c.ping_manager.maybe_prepare_ping time_manager
      let c1 := { c with ping_manager := pm }
      let after_ping : Except TErr Connection :=
        match maybe_ping with
        | Option.none => .ok c1
        | Option.some ping =>
          match c1.message_manager.buffer_send
              (WireMessage.server (ServerMessage.sync (SyncMessage.ping ping)))
              PingChannelKind with
          | .error e => .error e
          | .ok (_, mm) => .ok { c1 with message_manager := mm }
      match after_ping with
      | .error e => .error e
      | .ok c2 =>
        let (pongs, pm2) := c2.ping_manager.take_pending_pongs
        let c3 := { c2 with ping_manager := pm2 }
        pongs.foldlM (Connection.sendPongStep time_manager.current_time) c3
    else .ok c
  match sync_phase with
  | .error e => .error e
  | .ok c4 =>
    let (payloads, mm) := c4.message_manager.send_packets tick_manager.current_tick
    .ok (payloads, { c4 with message_manager := mm })

/-- Dispatch of one received channel message inside `Connection::receive`:
an application message is entity-remapped, queued for rebroadcast unless its
target is `None`, and then classified by input-message kind; a replication
message goes to the replication receiver; a sync message to the ping manager. -/
def Connection.process_message (tm : TimeManager) (channel_kind : ChannelKind)
    (c : Connection) (entry : Tick × ClientMessage) : Connection :=
  match entry.2 with
  | ClientMessage.message m target =>
    let message := m.map_entities c.replication_receiver.remote_entity_map
    let c :=
      if target ≠ NetworkTarget.none then
        { c with messages_to_rebroadcast :=
            c.messages_to_rebroadcast ++ [(message, target, channel_kind)] }
      else c
    match message.kind with
    | InputMessageKind.leafwing => { c with events := c.events.push_input_message message }
    | InputMessageKind.native =>
      { c with input_buffer := c.input_buffer.update_from_message message.inputTick message.inputVal }
    | InputMessageKind.none => { c with events := c.events.push_message channel_kind message }
  | ClientMessage.replication r =>
    { c with replication_receiver := c.replication_receiver.recv_message r entry.1 }
  | ClientMessage.sync s =>
    match s with
    | SyncMessage.ping ping => { c with ping_manager := c.ping_manager.buffer_pending_pong ping tm }
    | SyncMessage.pong pong => { c with ping_manager := c.ping_manager.process_pong pong tm }

/-- Applying one ready replication entry to the world and the event set. -/
def applyWorldStep (cw : Connection × World)
    (e : GroupId × Tick × ReplicationMessageData) : Connection × World :=
  let (w2, ev2) := cw.1.replication_receiver.apply_world cw.2 e.1 e.2.2 cw.1.events
  ({ cw.1 with events := ev2 }, w2)

/-- One channel group inside `Connection::receive`: if the group is non-empty,
process every message, then apply every newly-ready replication message to the
world (emitting events). -/
def Connection.process_channel (tm : TimeManager) (acc : Connection × World)
    (grp : ChannelKind × List (Tick × ClientMessage)) : Connection × World :=
  if grp.2.isEmpty then acc
  else
    let c1 := grp.2.foldl (Connection.process_message tm grp.1) acc.1
    let (ready, rr) := c1.replication_receiver.read_messages
    let c2 := { c1 with replication_receiver := rr }
    ready.foldl applyWorldStep (c2, acc.2)

/-- `Connection::receive`: drain the inbound channel messages, dispatch them,
apply ready replication data to the world, and return (and clear) the
accumulated event set. -/
def Connection.receive (c : Connection) (world : World) (tm : TimeManager) :
    ConnectionEvents × Connection × World :=
  let (groups, mm) := c.message_manager.read_messages
  let c0 := { c with message_manager := mm }
  let (c1, w1) := groups.foldl (Connection.process_channel tm) (c0, world)
  (c1.events, { c1 with events := ConnectionEvents.new }, w1)

/-- `Connection::recv_packet`: first notify the replication sender of all
acknowledgments observed since the previous call, then decode one packet from
the reader.  The decoded packet's send tick is logged and discarded: the
function returns unit. -/
def Connection.recv_packet (c : Connection) (reader : List Packet) (bevy_tick : Nat) :
    Except TErr (Unit × Connection × List Packet) :=
  let acks := c.message_manager.pending_acks
  let mm0 := { c.message_manager with pending_acks := [] }
  let rs := c.replication_sender.recv_update_acks acks bevy_tick
  let c0 := { c with message_manager := mm0, replication_sender := rs }
  match c0.message_manager.recv_packet reader with
  | .error e => .error e
  | .ok (_tick, mm1, rest) => .ok ((), { c0 with message_manager := mm1 }, rest)

/-- The server-level event aggregate. -/
structure ServerEvents where
  disconnects : List ClientId
  per_peer : List (ClientId × ConnectionEvents)
deriving DecidableEq

def ServerEvents.new : ServerEvents := { disconnects := [], per_peer := [] }

def ServerEvents.push_disconnects (se : ServerEvents) (id : ClientId) : ServerEvents :=
  { se with disconnects := se.disconnects ++ [id] }

def ServerEvents.push_events (se : ServerEvents) (id : ClientId) (ev : ConnectionEvents) :
    ServerEvents :=
  { se with per_peer := se.per_peer ++ [(id, ev)] }

/-- `ConnectionManager<P>`: the set of connections keyed by client id.  The
hash map is modelled as an association list (iteration order stands in for the
map's unspecified order). -/
structure ConnectionManager where
  connections : List (ClientId × Connection)
  channel_registry : ChannelRegistry
  events : ServerEvents
  replicate_component_cache : List (Entity × Nat)
  new_clients : List ClientId
deriving DecidableEq

def ConnectionManager.new (r : ChannelRegistry) : ConnectionManager :=
  { connections := [], channel_registry := r, events := ServerEvents.new,
    replicate_component_cache := [], new_clients := [] }

def ConnectionManager.getConn (m : ConnectionManager) (id : ClientId) : Option Connection :=
  (m.connections.find? (fun p => p.1 == id)).map (·.2)

/-- `ConnectionManager::connection`: lookup failing with `NotFound`. -/
def ConnectionManager.connection (m : ConnectionManager) (id : ClientId) :
    Except TErr Connection :=
  match m.getConn id with
  | Option.some c => .ok c
  | Option.none => .error .notFound

/-- `ConnectionManager::add`: if no connection exists, create one (a panic in
`Connection::new` propagates as `none`), record the connect event on it and
the client as newly joined; otherwise a no-op that only logs. -/
def ConnectionManager.add (m : ConnectionManager) (client_id : ClientId)
    (ping_config : PingConfig) : Option ConnectionManager :=
  match m.getConn client_id with
  | Option.some _ => some m
  | Option.none =>
    match Connection.new m.channel_registry ping_config with
    | Option.none => Option.none
    | Option.some conn =>
      let conn := { conn with events := conn.events.push_connection }
      some { m with connections := m.connections ++ [(client_id, conn)],
                    new_clients := m.new_clients ++ [client_id] }

/-- `ConnectionManager::remove`: unconditionally record a disconnect event and
drop the connection. -/
def ConnectionManager.remove (m : ConnectionManager) (client_id : ClientId) :
    ConnectionManager :=
  { m with events := m.events.push_disconnects client_id,
           connections := m.connections.filter (fun p => p.1 != client_id) }

/-- The body of the closure in `ConnectionManager::pop_inputs` for one
connection: pop the buffer at the tick; on a hit also refresh `last_input`,
otherwise fall back to `last_input`. -/
def Connection.pop_input (c : Connection) (tick : Tick) : Option Input × Connection :=
  let (received_input, ib) := c.input_buffer.pop tick
  match received_input with
  | Option.some i => (some i, { c with input_buffer := ib, last_input := some i })
  | Option.none => (c.last_input, { c with input_buffer := ib })

/-- `ConnectionManager::pop_inputs`: one entry per connected client. -/
def ConnectionManager.pop_inputs (m : ConnectionManager) (tick : Tick) :
    List (Option Input × ClientId) × ConnectionManager :=
  (m.connections.map (fun p => ((p.2.pop_input tick).1, p.1)),
   { m with connections := m.connections.map (fun p => (p.1, (p.2.pop_input tick).2)) })

/-- The fan-out of `ConnectionManager::buffer_message` over the connection
list: buffer a clone on every matching connection, stopping at the first
failure (connections already visited keep their buffered message). -/
def fanout (msg : AppMessage) (channel : ChannelKind) (target : NetworkTarget) :
    List (ClientId × Connection) → List (ClientId × Connection) × Option TErr
  | [] => ([], Option.none)
  | p :: rest =>
    if target.should_send_to p.1 then
      match p.2.buffer_message msg channel with
      | .error e => (p :: rest, some e)
      | .ok c2 =>
        let (rest2, err) := fanout msg channel target rest
        ((p.1, c2) :: rest2, err)
    else
      let (rest2, err) := fanout msg channel target rest
      (p :: rest2, err)

/-- `ConnectionManager::buffer_message`. -/
def ConnectionManager.buffer_message (m : ConnectionManager) (msg : AppMessage)
    (channel : ChannelKind) (target : NetworkTarget) : ConnectionManager × Option TErr :=
  let (conns, err) := fanout msg channel target m.connections
  ({ m with connections := conns }, err)

/-- The fan-out of `ConnectionManager::buffer_replication_messages`. -/
def replFanout (tick : Tick) :
    List (ClientId × Connection) → List (ClientId × Connection) × Option TErr
  | [] => ([], Option.none)
  | p :: rest =>
    match p.2.buffer_replication_messages tick with
    | .error e => (p :: rest, some e)
    | .ok c2 =>
      let (rest2, err) := replFanout tick rest
      ((p.1, c2) :: rest2, err)

/-- `ConnectionManager::buffer_replication_messages`. -/
def ConnectionManager.buffer_replication_messages (m : ConnectionManager) (tick : Tick) :
    ConnectionManager × Option TErr :=
  let (conns, err) := replFanout tick m.connections
  ({ m with connections := conns }, err)

/-- Pass 2 of `ConnectionManager::receive`: re-dispatch every collected
rebroadcast message through `buffer_message` with its original target and
channel, stopping at the first failure. -/
def rebroadcastAll (w : World) :
    ConnectionManager → List (AppMessage × NetworkTarget × ChannelKind) →
    ConnectionManager × World × Option TErr
  | m, [] => (m, w, Option.none)
  | m, e :: rest =>
    let (m2, err) := m.buffer_message e.1 e.2.2 e.2.1
    match err with
    | Option.some er => (m2, w, some er)
    | Option.none => rebroadcastAll w m2 rest

/-- One connection's part of pass 1 of `ConnectionManager::receive`: receive,
aggregate its events under its client id, take its rebroadcast list. -/
def mgrReceiveStep (tm : TimeManager)
    (acc : List (ClientId × Connection) × ServerEvents ×
      List (AppMessage × NetworkTarget × ChannelKind) × World)
    (p : ClientId × Connection) :
    List (ClientId × Connection) × ServerEvents ×
      List (AppMessage × NetworkTarget × ChannelKind) × World :=
  let (ev, c2, w2) := p.2.receive acc.2.2.2 tm
  (acc.1 ++ [(p.1, { c2 with messages_to_rebroadcast := [] })],
   acc.2.1.push_events p.1 ev,
   acc.2.2.1 ++ c2.messages_to_rebroadcast,
   w2)

/-- `ConnectionManager::receive`: every connection drains its inbound
messages (events are aggregated per peer, rebroadcast lists are taken), then
every collected message is re-dispatched through `buffer_message`. -/
def ConnectionManager.receive (m : ConnectionManager) (world : World) (tm : TimeManager) :
    ConnectionManager × World × Option TErr :=
  let step := m.connections.foldl (mgrReceiveStep tm) ([], m.events, [], world)
  let m1 := { m with connections := step.1, events := step.2.1 }
  rebroadcastAll step.2.2.2 m1 step.2.2.1

/-- A registry with the `EntityUpdatesChannel` (gives message ids, supports ack
subscription), the `PingChannel`, an application channel `2` and a channel `5`
whose sender does not return message ids. -/
def exampleRegistry : ChannelRegistry :=
  { channels :=
      [ (EntityUpdatesChannelKind,
          { gives_message_id := true, supports_ack_subscription := true,
            channel_name := "entity_updates" }),
        (PingChannelKind,
          { gives_message_id := false, supports_ack_subscription := false,
            channel_name := "ping" }),
        (2, { gives_message_id := true, supports_ack_subscription := false,
              channel_name := "app" }),
        (5, { gives_message_id := false, supports_ack_subscription := false,
              channel_name := "entity_actions" }) ] }

def examplePingConfig : PingConfig := { ping_interval_ms := 100 }

def fallbackConnection : Connection :=
  { message_manager := MessageManager.new exampleRegistry
  , replication_sender := ReplicationSender.new
  , replication_receiver := ReplicationReceiver.new
  , events := ConnectionEvents.new
  , ping_manager := PingManager.new examplePingConfig
  , input_buffer := InputBuffer.empty
  , last_input := Option.none
  , messages_to_rebroadcast := [] }

/-- The connection `Connection::new` builds over `exampleRegistry`. -/
def exampleConnection : Connection :=
  match Connection.new exampleRegistry examplePingConfig with
  | Option.some c => c
  | Option.none => fallbackConnection

def packetAtTick (t : Tick) : Packet :=
  { sent_tick := t, acked_ids := [], contents := [] }

/-- `exampleConnection` after receiving one ping: one pending pong whose
provisional send time is its construction time. -/
def exampleConnectionPong : Connection :=
  { exampleConnection with ping_manager := { exampleConnection.ping_manager with
      pending_pongs := [{ ping_id := 0, ping_received_time := 5, pong_sent_time := 5 }] } }

/-- The pings among a list of buffered payload entries. -/
def pingsOf (l : List (ChannelKind × WireMessage)) : List Ping :=
  l.filterMap (fun e => match e.2 with
    | WireMessage.server (ServerMessage.sync (SyncMessage.ping p)) => some p
    | _ => Option.none)

/-- The pongs among a list of buffered payload entries. -/
def pongsOf (l : List (ChannelKind × WireMessage)) : List Pong :=
  l.filterMap (fun e => match e.2 with
    | WireMessage.server (ServerMessage.sync (SyncMessage.pong p)) => some p
    | _ => Option.none)

/-- The wire entry a pong is flushed as, with its send time overwritten. -/
def pongWire (now : Nat) (pg : Pong) : ChannelKind × WireMessage :=
  (PingChannelKind,
   WireMessage.server (ServerMessage.sync (SyncMessage.pong { pg with pong_sent_time := now })))

/-- The precondition `Connection::new` needs to avoid panicking: the registry
has the `EntityUpdatesChannel` registered and its sender supports ack
subscription. -/
def goodRegistry (r : ChannelRegistry) : Bool :=
  match r.lookup EntityUpdatesChannelKind with
  | Option.some cfg => cfg.supports_ack_subscription
  | Option.none => false

/-- Whether the channel's sender returns message ids, as seen from a
connection's registry. -/
def channelGivesId (c : Connection) (ch : ChannelKind) : Bool :=
  match c.message_manager.channel_registry.lookup ch with
  | Option.some cfg => cfg.gives_message_id
  | Option.none => false

/-- The transport-assigned ids of a batch of replication sends starting from
`next`, keeping the `(id, group)` pairs of the `Updates` entries (the only ones
recorded in the ack-correlation map). -/
def assignIds (next : MessageId) :
    List (ChannelKind × GroupId × ReplicationMessageData) →
    List (MessageId × GroupId) × MessageId
  | [] => ([], next)
  | e :: rest =>
    let t := assignIds (next + 1) rest
    (match e.2.2 with
     | ReplicationMessageData.updates _ => (next, e.2.1) :: t.1
     | _ => t.1,
     t.2)

/-- A manager-level operation: connect or disconnect a peer. -/
inductive MgrOp
  | add (id : ClientId)
  | remove (id : ClientId)
deriving DecidableEq

def ConnectionManager.applyOp (pc : PingConfig) (m : ConnectionManager) :
    MgrOp → Option ConnectionManager
  | MgrOp.add id => m.add id pc
  | MgrOp.remove id => some (m.remove id)

def ConnectionManager.runOps (pc : PingConfig) (m : ConnectionManager) :
    List MgrOp → Option ConnectionManager
  | [] => some m
  | op :: rest =>
    match m.applyOp pc op with
    | Option.none => Option.none
    | Option.some m2 => m2.runOps pc rest

/-- Whether `id` is live after `ops`, starting from liveness `b`: the last
`add`/`remove` touching `id` decides. -/
def liveAfterFrom (b : Bool) (ops : List MgrOp) (id : ClientId) : Bool :=
  ops.foldl (fun b op => match op with
    | MgrOp.add j => if j == id then true else b
    | MgrOp.remove j => if j == id then false else b) b

/-- Whether `id` is live after `ops` from an empty manager. -/
def liveAfter (ops : List MgrOp) (id : ClientId) : Bool :=
  liveAfterFrom false ops id

/-- Whether a send on `ch` from this connection succeeds: the transport is not
failing and the channel is registered. -/
def Connection.send_ok (c : Connection) (ch : ChannelKind) : Bool :=
  (!c.message_manager.send_fails) && (c.message_manager.channel_registry.lookup ch).isSome

/-- The connection after a successful `buffer_message` (unchanged on failure). -/
def Connection.bufferForced (c : Connection) (msg : AppMessage) (ch : ChannelKind) : Connection :=
  match c.buffer_message msg ch with
  | .ok c2 => c2
  | .error _ => c

/-- A manager with two connected peers over the example registry. -/
def exampleManager2 : ConnectionManager :=
  { ConnectionManager.new exampleRegistry with
    connections := [(1, exampleConnection), (2, exampleConnection)] }

/-- Connection-level protocol events touching the ack-correlation map:
finalizing and sending a replication batch, or receiving one packet. -/
inductive ConnEvent
  | buffer_repl (tick : Tick) (batch : List (ChannelKind × GroupId × ReplicationMessageData))
  | recv_pkt (p : Packet)
deriving DecidableEq

def Connection.applyConnEvent (c : Connection) : ConnEvent → Except TErr Connection
  | ConnEvent.buffer_repl tick batch =>
    Connection.buffer_replication_messages
      { c with replication_sender := { c.replication_sender with to_finalize := batch } } tick
  | ConnEvent.recv_pkt p =>
    match c.recv_packet [p] 0 with
    | .error e => .error e
    | .ok (_, c2, _) => .ok c2

def Connection.runConnEvents (c : Connection) : List ConnEvent → Except TErr Connection
  | [] => .ok c
  | e :: rest =>
    match c.applyConnEvent e with
    | .error err => .error err
    | .ok c2 => c2.runConnEvents rest

/-- The specification-side replay of a connection-event history: which
`(id, group)` pairs were produced by `Updates` sends, which acknowledgments
have been processed by `recv_update_acks`, which are still pending (observed
by the last packet, processed at the next call), and the transport's id
counter. -/
structure AckReplay where
  sent_updates : List (MessageId × GroupId)
  processed : List MessageId
  pending : List MessageId
  next_id : MessageId
deriving DecidableEq

def AckReplay.init : AckReplay :=
  { sent_updates := [], processed := [], pending := [], next_id := 0 }

def AckReplay.step (s : AckReplay) : ConnEvent → AckReplay
  | ConnEvent.buffer_repl _ batch =>
    { s with sent_updates := s.sent_updates ++ (assignIds s.next_id batch).1,
             next_id := (assignIds s.next_id batch).2 }
  | ConnEvent.recv_pkt p =>
    { s with processed := s.processed ++ s.pending, pending := p.acked_ids }

def ackReplay (h : List ConnEvent) : AckReplay :=
  h.foldl AckReplay.step AckReplay.init

/-- The transport only acknowledges ids it has assigned: every packet's acked
ids are below the id counter at the time it is received. -/
def validAcksFrom (n : MessageId) : List ConnEvent → Bool
  | [] => true
  | ConnEvent.buffer_repl _ batch :: rest => validAcksFrom (assignIds n batch).2 rest
  | ConnEvent.recv_pkt p :: rest =>
    p.acked_ids.all (fun i => decide (i < n)) && validAcksFrom n rest

/-- The invariant tying a connection to the replay of its history. -/
def AckInv (c : Connection) (s : AckReplay) : Prop :=
  c.replication_sender.updates_message_id_to_group_id
      = s.sent_updates.filter (fun e => decide (e.1 ∉ s.processed)) ∧
  c.message_manager.pending_acks = s.pending ∧
  c.message_manager.next_message_id = s.next_id ∧
  c.message_manager.send_fails = false ∧
  (∀ e ∈ s.sent_updates, e.1 < s.next_id) ∧
  (∀ i ∈ s.processed, i < s.next_id) ∧
  (∀ i ∈ s.pending, i < s.next_id)

/-- A concrete event history: one `Updates` send, its ack arriving in a packet
and being processed by the following `recv_packet`. -/
def exampleHistory : List ConnEvent :=
  [ConnEvent.buffer_repl 1 [(EntityUpdatesChannelKind, 7, ReplicationMessageData.updates 3)],
   ConnEvent.recv_pkt { sent_tick := 2, acked_ids := [0], contents := [] },
   ConnEvent.recv_pkt { sent_tick := 3, acked_ids := [], contents := [] }]

/-- The connection after replaying `exampleHistory`. -/
def exampleConnectionAfter : Connection :=
  match exampleConnection.runConnEvents exampleHistory with
  | .ok c => c
  | .error _ => exampleConnection

/-- The rebroadcast entry one inbound channel message produces (empty for
replication and sync messages, and for application messages targeting
`None`). -/
def rebroadcastOfOne (em : List (Entity × Entity)) (ch : ChannelKind) :
    ClientMessage → List (AppMessage × NetworkTarget × ChannelKind)
  | ClientMessage.message m target =>
    if target ≠ NetworkTarget.none then [(m.map_entities em, target, ch)] else []
  | ClientMessage.replication _ => []
  | ClientMessage.sync _ => []

def rebroadcastOfMsgs (em : List (Entity × Entity)) (ch : ChannelKind)
    (msgs : List (Tick × ClientMessage)) : List (AppMessage × NetworkTarget × ChannelKind) :=
  (msgs.map (fun e => rebroadcastOfOne em ch e.2)).join

def rebroadcastOfInbox (em : List (Entity × Entity))
    (inbox : List (ChannelKind × List (Tick × ClientMessage))) :
    List (AppMessage × NetworkTarget × ChannelKind) :=
  (inbox.map (fun g => rebroadcastOfMsgs em g.1 g.2)).join

/-- What one connection contributes to the manager's rebroadcast pass. -/
def connRebroadcasts (c : Connection) : List (AppMessage × NetworkTarget × ChannelKind) :=
  c.messages_to_rebroadcast
    ++ rebroadcastOfInbox c.replication_receiver.remote_entity_map c.message_manager.inbox

def allRebroadcasts (m : ConnectionManager) :
    List (AppMessage × NetworkTarget × ChannelKind) :=
  (m.connections.map (fun p => connRebroadcasts p.2)).join

/-- The connection as pass 1 of the manager's receive leaves it: received with
the rebroadcast list taken. -/
def Connection.afterReceive (c : Connection) (tm : TimeManager) : Connection :=
  { (c.receive [] tm).2.1 with messages_to_rebroadcast := [] }

/-- The per-peer application of a rebroadcast list. -/
def rblApply (id : ClientId) (rbl : List (AppMessage × NetworkTarget × ChannelKind))
    (c : Connection) : Connection :=
  rbl.foldl (fun c e => if e.2.1.should_send_to id = true
      then c.bufferForced e.1 e.2.2 else c) c

def sampleTime : TimeManager := { now := 5, ready_to_send := false }

/-- A native (input-kind) application message. -/
def nativeInputMsg : AppMessage :=
  { payload := 9, entities := [], kind := InputMessageKind.native,
    inputTick := 3, inputVal := 7 }

/-- A connection whose inbox holds one native input message targeted at
`NetworkTarget.all` on channel `2`. -/
def inputMsgConnection : Connection :=
  { exampleConnection with message_manager := { exampleConnection.message_manager with
      inbox := [(2, [(0, ClientMessage.message nativeInputMsg NetworkTarget.all)])] } }

/-- A manager where peer `1` has the pending native input message and peer `2`
is idle. -/
def inputMsgManager : ConnectionManager :=
  { ConnectionManager.new exampleRegistry with
      connections := [(1, inputMsgConnection), (2, exampleConnection)] }

/-- One exogenous input event at a connection: a native input arriving for a
tick (in arbitrary order), or the server querying the inputs for a tick. -/
inductive InputEvent
  | record (t : Tick) (i : Input)
  | query (t : Tick)
deriving DecidableEq

/-- Applying one input event to a connection: a record is the arrival of a
native input message (`update_from_message`), a query is the connection's part
of `ConnectionManager::pop_inputs`. -/
def Connection.applyInputEvent (c : Connection) : InputEvent → Connection
  | InputEvent.record t i =>
    { c with input_buffer := c.input_buffer.update_from_message t i }
  | InputEvent.query t => (c.pop_input t).2

def runInputEvents (c : Connection) (h : List InputEvent) : Connection :=
  h.foldl Connection.applyInputEvent c

/-- The replay ledger for C1: the accepted records (latest arrival per tick,
arrivals at ticks already consumed are dropped) and the tick from which the
next query draws. -/
structure InReplay where
  accepted : List (Tick × Input)
  nx : Tick
deriving DecidableEq

def InReplay.init : InReplay := { accepted := [], nx := 0 }

def InReplay.step (r : InReplay) : InputEvent → InReplay
  | InputEvent.record t i =>
    if t < r.nx then r
    else { r with accepted := ((t, i) :: r.accepted.filter (fun e => decide (e.1 ≠ t))) }
  | InputEvent.query t => { r with nx := t + 1 }

def inReplay (h : List InputEvent) : InReplay := h.foldl InReplay.step InReplay.init

/-- The claim's described answer for a query at `q` after history `h`: the
input recorded for `q` itself if present, otherwise the input recorded for the
most recent earlier tick, otherwise none. -/
def claimAnswer (h : List InputEvent) (q : Tick) : Option Input :=
  match (inReplay h).accepted.find? (fun e => e.1 == q) with
  | Option.some e => Option.some e.2
  | Option.none =>
    (bestEntry (fun x => decide (x < q)) (inReplay h).accepted).map (·.2)

/-- Queries never target a tick strictly before the last answered one. -/
def validQueriesFrom (nx : Tick) : List InputEvent → Bool
  | [] => true
  | InputEvent.record _ _ :: h => validQueriesFrom nx h
  | InputEvent.query t :: h => decide (nx ≤ t + 1) && validQueriesFrom (t + 1) h

/-- The invariant tying a connection's input state to the replay ledger. -/
def InputInv (c : Connection) (r : InReplay) : Prop :=
  c.input_buffer.entries = r.accepted.filter (fun e => decide (r.nx ≤ e.1)) ∧
  c.input_buffer.next_tick = r.nx ∧
  c.last_input = (bestEntry (fun x => decide (x < r.nx)) r.accepted).map (·.2) ∧
  (r.accepted.map (·.1)).Nodup

/-- Per-peer input histories: peer 1 receives inputs out of order (the arrival
for tick 2 comes after tick 4 was already queried), peer 2 never sends any. -/
def inputHs : List (ClientId × List InputEvent) :=
  [(1, [InputEvent.record 3 10, InputEvent.record 1 7, InputEvent.query 4,
        InputEvent.record 2 5]),
   (2, [])]

def inputExampleManager : ConnectionManager :=
  { ConnectionManager.new exampleRegistry with
      connections := (inputHs.map (fun p => (p.1, runInputEvents exampleConnection p.2))) }

/-! ## Theorems -/

theorem foldl_preserve {α β : Type} {P : α → Prop} (f : α → β → α)
    (h : ∀ a b, P a → P (f a b)) :
    ∀ (l : List β) (a : α), P a → P (l.foldl f a) := by
  intro l
  induction l with
  | nil => intro a ha; exact ha
  | cons b t ih => intro a ha; exact ih (f a b) (h a b ha)

/-- Counterexample to claim C4 as stated: the value `recv_packet` returns is
identical for packets sent at different ticks (it is unit), so `recv_packet`
does not return the Tick at which the decoded packet was sent. -/
theorem recv_packet_return_carries_no_tick :
    (Connection.recv_packet exampleConnection [packetAtTick 42] 0).map (fun r => r.1)
      = (Connection.recv_packet exampleConnection [packetAtTick 43] 0).map (fun r => r.1)
    ∧ (packetAtTick 42).sent_tick ≠ (packetAtTick 43).sent_tick := by
  exact ⟨rfl, by decide⟩

/-- Claim C4 (amended): `recv_packet` first notifies the replication sender of
all acknowledgments observed since the previous call (pruning exactly the
acknowledged entries of the correlation map), then decodes exactly one packet
from the reader (delivering its messages and only queueing the acks it carries
for the next call); the decoded send tick is discarded and unit is returned. -/
theorem recv_packet_acks_then_decode (c : Connection) (p : Packet) (rest : List Packet)
    (bt : Nat) :
    ∃ c2, c.recv_packet (p :: rest) bt = .ok ((), c2, rest) ∧
      c2.replication_sender.updates_message_id_to_group_id
        = c.replication_sender.updates_message_id_to_group_id.filter
            (fun e => !(c.message_manager.pending_acks.contains e.1)) ∧
      c2.message_manager.pending_acks = p.acked_ids ∧
      c2.message_manager.inbox = c.message_manager.inbox ++ p.contents := by
  refine ⟨_, rfl, ?_, ?_, ?_⟩ <;>
    simp [Connection.recv_packet, MessageManager.recv_packet,
      ReplicationSender.recv_update_acks]

theorem process_message_mm (tm : TimeManager) (ch : ChannelKind) (c : Connection)
    (e : Tick × ClientMessage) :
    (Connection.process_message tm ch c e).message_manager = c.message_manager := by
  rcases e with ⟨t, msg⟩
  cases msg with
  | message m target =>
    simp only [Connection.process_message]
    split <;> split <;> rfl
  | replication r => rfl
  | sync s => cases s <;> rfl

theorem process_channel_mm (tm : TimeManager) (acc : Connection × World)
    (grp : ChannelKind × List (Tick × ClientMessage)) :
    ((Connection.process_channel tm acc grp).1).message_manager
      = acc.1.message_manager := by
  rw [Connection.process_channel]
  split
  · rfl
  · have h1 : ∀ (l : List (Tick × ClientMessage)) (c : Connection),
        (l.foldl (Connection.process_message tm grp.1) c).message_manager
          = c.message_manager := by
      intro l
      induction l with
      | nil => intro c; rfl
      | cons b tl ih =>
        intro c
        rw [List.foldl_cons, ih, process_message_mm]
    have h2 : ∀ (l : List (GroupId × Tick × ReplicationMessageData))
        (cw : Connection × World),
        ((l.foldl applyWorldStep cw).1).message_manager
          = cw.1.message_manager := by
      intro l
      induction l with
      | nil => intro cw; rfl
      | cons b tl ih => intro cw; rw [List.foldl_cons, ih]; rfl
    simp only [h2, h1]

theorem receive_mm_outbox_like (c : Connection) (w : World) (tm : TimeManager) :
    ((c.receive w tm).2.1).message_manager
      = { c.message_manager with inbox := [] } := by
  rw [Connection.receive]
  simp only [MessageManager.read_messages]
  have h := foldl_preserve (P := fun (cw : Connection × World) =>
      cw.1.message_manager = { c.message_manager with inbox := [] })
    (Connection.process_channel tm)
    (fun a b ha => by
      show (Connection.process_channel tm a b).1.message_manager = _
      rw [process_channel_mm]; exact ha)
    c.message_manager.inbox
    ({ c with message_manager := { c.message_manager with inbox := [] } }, w)
    rfl
  exact h

theorem receive_inbox_empty_returns_events (c : Connection) (w : World) (tm : TimeManager)
    (h : c.message_manager.inbox = []) :
    (c.receive w tm).1 = c.events ∧ (c.receive w tm).2.2 = w := by
  rw [Connection.receive]
  simp only [MessageManager.read_messages, h, List.foldl_nil]
  refine ⟨?_, ?_⟩ <;> trivial

/-- Claim C7: `receive` returns the accumulated event set and leaves the
stored event set empty; with no new inbound messages it returns the stored
set unchanged, so a second call returns an empty event set and events are
never double-reported. -/
theorem receive_drains_event_set (c : Connection) (w w2 : World) (tm tm2 : TimeManager) :
    ((c.receive w tm).2.1).events = ConnectionEvents.new ∧
    (c.message_manager.inbox = [] →
      (c.receive w tm).1 = c.events ∧ (c.receive w tm).2.2 = w) ∧
    (((c.receive w tm).2.1).receive w2 tm2).1 = ConnectionEvents.new := by
  have hev : ∀ (d : Connection) (wd : World) (tmd : TimeManager),
      ((d.receive wd tmd).2.1).events = ConnectionEvents.new := by
    intro d wd tmd
    rw [Connection.receive]
  refine ⟨hev c w tm, fun h => receive_inbox_empty_returns_events c w tm h, ?_⟩
  have hinbox : ((c.receive w tm).2.1).message_manager.inbox = [] := by
    rw [receive_mm_outbox_like]
  rw [(receive_inbox_empty_returns_events _ w2 tm2 hinbox).1, hev c w tm]

/-- Witness for C7 at a concrete connection with an empty inbox. -/
theorem receive_drains_event_set_witness :
    (exampleConnection.receive [] { now := 0, ready_to_send := true }).1
      = exampleConnection.events :=
  ((receive_drains_event_set exampleConnection [] []
      { now := 0, ready_to_send := true } { now := 0, ready_to_send := true }).2.1 rfl).1

theorem pingsOf_pongWire (now : Nat) (l : List Pong) :
    pingsOf (l.map (pongWire now)) = [] := by
  induction l with
  | nil => rfl
  | cons p t ih => simpa [pingsOf, pongWire] using ih

theorem pongsOf_pongWire (now : Nat) (l : List Pong) :
    pongsOf (l.map (pongWire now)) = l.map (fun pg => { pg with pong_sent_time := now }) := by
  induction l with
  | nil => rfl
  | cons p t ih =>
    simp only [List.map_cons, pongsOf, List.filterMap_cons, pongWire]
    simpa [pongsOf] using ih

/-- A successful `buffer_send` appends the message to the outbox. -/
theorem buffer_send_ok (mm : MessageManager) (msg : WireMessage) (ch : ChannelKind)
    (hf : mm.send_fails = false)
    (hr : (mm.channel_registry.lookup ch).isSome = true) :
    ∃ oid nid, mm.buffer_send msg ch = .ok (oid,
      { mm with next_message_id := nid, outbox := mm.outbox ++ [(ch, msg)] }) := by
  cases h : mm.channel_registry.lookup ch with
  | none => simp [h] at hr
  | some cfg =>
    cases hg : cfg.gives_message_id with
    | false =>
      refine ⟨Option.none, mm.next_message_id, ?_⟩
      simp [MessageManager.buffer_send, h, hf, hg]
    | true =>
      refine ⟨some mm.next_message_id, mm.next_message_id + 1, ?_⟩
      simp [MessageManager.buffer_send, h, hf, hg]

theorem sendPongStep_ok (now : Nat) (conn : Connection) (pong : Pong)
    (hf : conn.message_manager.send_fails = false)
    (hr : (conn.message_manager.channel_registry.lookup PingChannelKind).isSome = true) :
    ∃ nid, Connection.sendPongStep now conn pong = .ok
      { conn with message_manager := { conn.message_manager with
          next_message_id := nid,
          outbox := conn.message_manager.outbox ++ [pongWire now pong] } } := by
  obtain ⟨oid, nid, hbs⟩ := buffer_send_ok conn.message_manager
    (WireMessage.server (ServerMessage.sync (SyncMessage.pong
      { pong with pong_sent_time := now }))) PingChannelKind hf hr
  refine ⟨nid, ?_⟩
  rw [Connection.sendPongStep]
  simp only [hbs, pongWire]

theorem pong_fold_ok (now : Nat) : ∀ (pongs : List Pong) (conn : Connection),
    conn.message_manager.send_fails = false →
    (conn.message_manager.channel_registry.lookup PingChannelKind).isSome = true →
    ∃ nid, pongs.foldlM (Connection.sendPongStep now) conn = .ok
      { conn with message_manager := { conn.message_manager with
          next_message_id := nid,
          outbox := conn.message_manager.outbox ++ pongs.map (pongWire now) } } := by
  intro pongs
  induction pongs with
  | nil =>
    intro conn hf hr
    refine ⟨conn.message_manager.next_message_id, ?_⟩
    simp only [List.foldlM_nil, List.map_nil, List.append_nil]
    rfl
  | cons pg rest ih =>
    intro conn hf hr
    obtain ⟨nid1, hstep⟩ := sendPongStep_ok now conn pg hf hr
    obtain ⟨nid2, hrest⟩ := ih
      { conn with message_manager := { conn.message_manager with
          next_message_id := nid1,
          outbox := conn.message_manager.outbox ++ [pongWire now pg] } } hf hr
    refine ⟨nid2, ?_⟩
    rw [List.foldlM_cons, hstep]
    simpa using hrest

/-- Claim C5: when the readiness poll reports ready, `send_packets` drains at
most one outbound ping and all pending pongs, each pong's recorded send time
being overwritten with the current time immediately before buffering; when not
ready, no ping or pong is buffered and the ping state is untouched. -/
theorem send_packets_pong_time_overwrite (c : Connection) (tm : TimeManager)
    (tk : TickManager)
    (hfail : c.message_manager.send_fails = false)
    (hreg : (c.message_manager.channel_registry.lookup PingChannelKind).isSome = true) :
    ∃ sync c2,
      c.send_packets tm tk = .ok (c.message_manager.outbox ++ sync, c2) ∧
      (pingsOf sync).length ≤ 1 ∧
      pongsOf sync = (if tm.is_ready_to_send then
          c.ping_manager.pending_pongs.map
            (fun pg => { pg with pong_sent_time := tm.current_time })
        else []) ∧
      (tm.is_ready_to_send = false → sync = [] ∧ c2.ping_manager = c.ping_manager) ∧
      (tm.is_ready_to_send = true → c2.ping_manager.pending_pongs = []) ∧
      c2.message_manager.outbox = [] := by
  cases hready : tm.is_ready_to_send with
  | false =>
    refine ⟨[], { c with message_manager := { c.message_manager with outbox := [] } }, ?_⟩
    rw [Connection.send_packets]
    simp [hready, MessageManager.send_packets, pingsOf, pongsOf]
  | true =>
    cases hping : c.ping_manager.ping_timer_ready with
    | false =>
      obtain ⟨nid, hfold⟩ := pong_fold_ok tm.current_time c.ping_manager.pending_pongs
        { c with ping_manager := { c.ping_manager with
            ping_timer_ready := false, pending_pongs := [] } } hfail hreg
      refine ⟨c.ping_manager.pending_pongs.map (pongWire tm.current_time),
        { c with
          ping_manager := { c.ping_manager with
            ping_timer_ready := false, pending_pongs := [] },
          message_manager := { c.message_manager with
            next_message_id := nid, outbox := [] } }, ?_, ?_, ?_, ?_, ?_, ?_⟩
      · rw [Connection.send_packets]
        simp only [hready, if_true, PingManager.maybe_prepare_ping, hping,
          PingManager.take_pending_pongs, Bool.false_eq_true, if_false]
        rw [hfold]
        simp [MessageManager.send_packets]
      · simp [pingsOf_pongWire]
      · simp [hready, pongsOf_pongWire]
      · intro h; exact Bool.noConfusion h
      · intro _; rfl
      · rfl
    | true =>
      obtain ⟨oid, nid0, hping_send⟩ := buffer_send_ok c.message_manager
        (WireMessage.server (ServerMessage.sync (SyncMessage.ping { id := c.ping_manager.next_ping_id })))
        PingChannelKind hfail hreg
      obtain ⟨nid, hfold⟩ := pong_fold_ok tm.current_time c.ping_manager.pending_pongs
        { c with
          ping_manager := { c.ping_manager with
            ping_timer_ready := false, next_ping_id := c.ping_manager.next_ping_id + 1,
            ping_sent_times := c.ping_manager.ping_sent_times
              ++ [(c.ping_manager.next_ping_id, tm.current_time)],
            pending_pongs := [] },
          message_manager := { c.message_manager with
            next_message_id := nid0,
            outbox := c.message_manager.outbox
              ++ [(PingChannelKind, WireMessage.server (ServerMessage.sync
                    (SyncMessage.ping { id := c.ping_manager.next_ping_id })))] } }
        hfail hreg
      refine ⟨(PingChannelKind, WireMessage.server (ServerMessage.sync
          (SyncMessage.ping { id := c.ping_manager.next_ping_id })))
          :: c.ping_manager.pending_pongs.map (pongWire tm.current_time),
        { c with
          ping_manager := { c.ping_manager with
            ping_timer_ready := false, next_ping_id := c.ping_manager.next_ping_id + 1,
            ping_sent_times := c.ping_manager.ping_sent_times
              ++ [(c.ping_manager.next_ping_id, tm.current_time)],
            pending_pongs := [] },
          message_manager := { c.message_manager with
            next_message_id := nid, outbox := [] } }, ?_, ?_, ?_, ?_, ?_, ?_⟩
      · rw [Connection.send_packets]
        simp only [hready, if_true, PingManager.maybe_prepare_ping, hping,
          PingManager.take_pending_pongs]
        rw [hping_send]
        dsimp only
        rw [hfold]
        simp [MessageManager.send_packets]
      · have hp := pingsOf_pongWire tm.current_time c.ping_manager.pending_pongs
        simp only [pingsOf, List.filterMap_cons] at hp ⊢
        rw [hp]
        simp
      · have hp := pongsOf_pongWire tm.current_time c.ping_manager.pending_pongs
        simp only [pongsOf, List.filterMap_cons] at hp ⊢
        rw [hp]
        simp
      · intro h; exact Bool.noConfusion h
      · intro _; rfl
      · rfl

theorem connection_new_isSome (r : ChannelRegistry) (pc : PingConfig) :
    (Connection.new r pc).isSome = goodRegistry r := by
  rw [Connection.new, goodRegistry]
  cases r.lookup EntityUpdatesChannelKind with
  | none => rfl
  | some cfg => cases h : cfg.supports_ack_subscription <;> simp [h]

/-- Claim C10: creating a `Connection` panics unless the registry has a
registered `EntityUpdatesChannel` whose sender supports ack subscription (and
so does `ConnectionManager::add` for a new peer); for every registry meeting
that precondition, construction succeeds with an empty input buffer, no last
input, an empty event set and an empty rebroadcast list. -/
theorem connection_new_requires_updates_channel (registry : ChannelRegistry)
    (pc : PingConfig) :
    ((Connection.new registry pc).isSome = goodRegistry registry) ∧
    (∀ c, Connection.new registry pc = some c →
        c.input_buffer = InputBuffer.empty ∧ c.last_input = Option.none ∧
        c.events = ConnectionEvents.new ∧ c.messages_to_rebroadcast = []) ∧
    (∀ (m : ConnectionManager) id, m.getConn id = Option.none →
        ((m.add id pc).isSome = goodRegistry m.channel_registry)) := by
  refine ⟨connection_new_isSome registry pc, ?_, ?_⟩
  · intro c hc
    rw [Connection.new] at hc
    rcases hlook : registry.lookup EntityUpdatesChannelKind with _ | cfg <;> rw [hlook] at hc
    · cases hc
    · by_cases hs : cfg.supports_ack_subscription = true
      · simp only [hs, if_true] at hc
        cases hc
        exact ⟨rfl, rfl, rfl, rfl⟩
      · simp only [if_neg hs] at hc
        cases hc
  · intro m id hget
    rw [ConnectionManager.add, hget]
    rw [← connection_new_isSome m.channel_registry pc]
    cases Connection.new m.channel_registry pc <;> rfl

/-- Witness for C10 at the example registry. -/
theorem connection_new_requires_updates_channel_witness :
    (Connection.new exampleRegistry examplePingConfig).map
        (fun c => decide (c.last_input = Option.none)) = some true := by
  cases hc : Connection.new exampleRegistry examplePingConfig with
  | none =>
    have h := (connection_new_requires_updates_channel exampleRegistry examplePingConfig).1
    rw [hc] at h
    have h2 : goodRegistry exampleRegistry = true := by decide
    rw [h2] at h
    exact Bool.noConfusion h
  | some c =>
    have h := (connection_new_requires_updates_channel exampleRegistry
      examplePingConfig).2.1 c hc
    simp [h.2.1]

theorem except_bind_ok {α β : Type} (a : α) (f : α → Except TErr β) :
    (Except.ok a >>= f : Except TErr β) = f a := rfl

theorem except_bind_error {α β : Type} (er : TErr) (f : α → Except TErr β) :
    ((Except.error er : Except TErr α) >>= f) = Except.error er := rfl

/-- A successful fold of `sendReplicationOne` assigns one fresh id per entry,
appends exactly the `Updates` pairs to the correlation map, and leaves the
rest of the connection (except the outbox) unchanged. -/
theorem sendRepl_fold_ok_char : ∀ (batch : List (ChannelKind × GroupId × ReplicationMessageData))
    (c c2 : Connection),
    batch.foldlM Connection.sendReplicationOne c = .ok c2 →
    c2.replication_sender.updates_message_id_to_group_id
      = c.replication_sender.updates_message_id_to_group_id
        ++ (assignIds c.message_manager.next_message_id batch).1 ∧
    c2.message_manager.next_message_id
      = (assignIds c.message_manager.next_message_id batch).2 ∧
    c2.message_manager.pending_acks = c.message_manager.pending_acks ∧
    c2.message_manager.send_fails = c.message_manager.send_fails ∧
    c2.message_manager.channel_registry = c.message_manager.channel_registry ∧
    c2.message_manager.inbox = c.message_manager.inbox ∧
    c2.replication_sender.to_finalize = c.replication_sender.to_finalize := by
  intro batch
  induction batch with
  | nil =>
    intro c c2 h
    cases h
    simp [assignIds]
  | cons e rest ih =>
    intro c c2 h
    rw [List.foldlM_cons] at h
    rw [Connection.sendReplicationOne] at h
    rcases hlook : c.message_manager.channel_registry.lookup e.1 with _ | cfg
    · rw [MessageManager.buffer_send, hlook] at h
      cases h
    · rw [MessageManager.buffer_send, hlook] at h
      by_cases hsf : c.message_manager.send_fails = true
      · simp only [hsf, if_true] at h
        cases h
      · rw [Bool.not_eq_true] at hsf
        simp only [hsf, Bool.false_eq_true, if_false] at h
        cases hg : cfg.gives_message_id with
        | false =>
          simp only [hg, Bool.false_eq_true, if_false] at h
          cases h
        | true =>
          simp only [hg, if_true] at h
          cases hd : e.2.2 with
          | updates v =>
            simp only [hd] at h
            have := ih _ _ h
            simp only [assignIds, hd]
            simp only at this
            refine ⟨?_, ?_, ?_, ?_, ?_, ?_, ?_⟩ <;>
              simp [this.1, this.2.1, this.2.2.1, this.2.2.2.1, this.2.2.2.2.1,
                this.2.2.2.2.2.1, this.2.2.2.2.2.2, hsf]
          | actions v =>
            simp only [hd] at h
            have := ih _ _ h
            simp only [assignIds, hd]
            simp only at this
            refine ⟨?_, ?_, ?_, ?_, ?_, ?_, ?_⟩ <;>
              simp [this.1, this.2.1, this.2.2.1, this.2.2.2.1, this.2.2.2.2.1,
                this.2.2.2.2.2.1, this.2.2.2.2.2.2, hsf]

/-- With a working transport and registered channels, the fold raises the
invariant violation exactly when some entry's channel gives no message id. -/
theorem sendReplicationOne_iv (c : Connection)
    (e : ChannelKind × GroupId × ReplicationMessageData)
    (hf : c.message_manager.send_fails = false)
    (hreg : (c.message_manager.channel_registry.lookup e.1).isSome = true)
    (hgi : channelGivesId c e.1 = false) :
    Connection.sendReplicationOne c e = .error .invariantViolation := by
  rcases hlook : c.message_manager.channel_registry.lookup e.1 with _ | cfg
  · rw [hlook] at hreg; cases hreg
  · simp only [channelGivesId, hlook] at hgi
    rw [Connection.sendReplicationOne, MessageManager.buffer_send, hlook]
    simp only [hf, Bool.false_eq_true, if_false, hgi]

theorem sendReplicationOne_ok_exists (c : Connection)
    (e : ChannelKind × GroupId × ReplicationMessageData)
    (hf : c.message_manager.send_fails = false)
    (hgi : channelGivesId c e.1 = true) :
    ∃ c2, Connection.sendReplicationOne c e = .ok c2 ∧
      c2.message_manager.send_fails = false ∧
      c2.message_manager.channel_registry = c.message_manager.channel_registry := by
  rcases hlook : c.message_manager.channel_registry.lookup e.1 with _ | cfg
  · simp only [channelGivesId, hlook] at hgi; cases hgi
  · simp only [channelGivesId, hlook] at hgi
    rw [Connection.sendReplicationOne, MessageManager.buffer_send, hlook]
    simp only [hf, Bool.false_eq_true, if_false, hgi, if_true]
    cases hd : e.2.2 with
    | updates v =>
      refine ⟨{ c with
          message_manager := { c.message_manager with
            send_fails := false,
            next_message_id := c.message_manager.next_message_id + 1,
            outbox := c.message_manager.outbox
              ++ [(e.1, WireMessage.client (ClientMessage.replication
                    { group_id := e.2.1, data := ReplicationMessageData.updates v }))] },
          replication_sender := { c.replication_sender with
            updates_message_id_to_group_id :=
              c.replication_sender.updates_message_id_to_group_id
                ++ [(c.message_manager.next_message_id, e.2.1)] } }, ?_, rfl, rfl⟩
      simp [hd]
    | actions v =>
      refine ⟨{ c with
          message_manager := { c.message_manager with
            send_fails := false,
            next_message_id := c.message_manager.next_message_id + 1,
            outbox := c.message_manager.outbox
              ++ [(e.1, WireMessage.client (ClientMessage.replication
                    { group_id := e.2.1, data := ReplicationMessageData.actions v }))] } }, ?_, rfl, rfl⟩
      simp [hd]

/-- With a working transport and registered channels, the fold raises the
invariant violation exactly when some entry's channel gives no message id. -/
theorem sendRepl_fold_iv_iff : ∀ (batch : List (ChannelKind × GroupId × ReplicationMessageData))
    (c : Connection),
    c.message_manager.send_fails = false →
    (∀ e ∈ batch, (c.message_manager.channel_registry.lookup e.1).isSome = true) →
    (batch.foldlM Connection.sendReplicationOne c = .error .invariantViolation ↔
      ∃ e ∈ batch, channelGivesId c e.1 = false) := by
  intro batch
  induction batch with
  | nil =>
    intro c hf hr
    constructor
    · intro h
      exact absurd h (by simp [pure, Except.pure])
    · rintro ⟨x, hx, _⟩
      cases hx
  | cons e rest ih =>
    intro c hf hr
    have hreg := hr e (List.mem_cons_self e rest)
    rw [List.foldlM_cons]
    cases hgi : channelGivesId c e.1 with
    | false =>
      rw [sendReplicationOne_iv c e hf hreg hgi, except_bind_error]
      constructor
      · intro _
        exact ⟨e, List.mem_cons_self e rest, hgi⟩
      · intro _
        rfl
    | true =>
      obtain ⟨c2, hstep, hf2, hr2⟩ := sendReplicationOne_ok_exists c e hf hgi
      rw [hstep, except_bind_ok]
      have hch : ∀ x, channelGivesId c2 x = channelGivesId c x := by
        intro x
        rw [channelGivesId, channelGivesId, hr2]
      rw [ih c2 hf2 (fun x hx => by rw [hr2]; exact hr x (List.mem_cons_of_mem e hx))]
      constructor
      · rintro ⟨x, hx, hgx⟩
        exact ⟨x, List.mem_cons_of_mem e hx, (hch x.1).symm.trans hgx⟩
      · rintro ⟨x, hx, hgx⟩
        rcases List.mem_cons.mp hx with rfl | hx2
        · rw [hgi] at hgx; cases hgx
        · exact ⟨x, hx2, (hch x.1).trans hgx⟩

/-- Claim C9 (amended): with a working transport and registered channels,
`buffer_replication_messages` fails with the fatal `InvariantViolation` exactly
when the send-buffer returns no `MessageId` for some finalized replication
message, whatever its channel or data variant; when every send returns an id
the operation completes normally and records ids only for `Updates` data. -/
theorem buffer_replication_message_id_requirement (c : Connection) (tick : Tick)
    (hf : c.message_manager.send_fails = false)
    (hr : ∀ e ∈ c.replication_sender.to_finalize,
        (c.message_manager.channel_registry.lookup e.1).isSome = true) :
    (c.buffer_replication_messages tick = .error .invariantViolation ↔
      ∃ e ∈ c.replication_sender.to_finalize, channelGivesId c e.1 = false) ∧
    (∀ c2, c.buffer_replication_messages tick = .ok c2 →
      c2.replication_sender.updates_message_id_to_group_id
        = c.replication_sender.updates_message_id_to_group_id
          ++ (assignIds c.message_manager.next_message_id
                c.replication_sender.to_finalize).1) := by
  rw [Connection.buffer_replication_messages]
  simp only [ReplicationSender.finalize]
  constructor
  · exact sendRepl_fold_iv_iff c.replication_sender.to_finalize
      { c with replication_sender := { c.replication_sender with to_finalize := [] } }
      hf hr
  · intro c2 h
    have := (sendRepl_fold_ok_char c.replication_sender.to_finalize
      { c with replication_sender := { c.replication_sender with to_finalize := [] } }
      c2 h).1
    exact this

/-- Counterexample to claim C9 as stated: a state whose finalized batch sends
one `Actions` message on channel 5 (whose sender gives no message id, while
the designated `EntityUpdatesChannel` does) raises the invariant violation
even though no send on the designated update channel failed to return an id. -/
theorem invariant_violation_on_actions_channel :
    (Connection.buffer_replication_messages
        { exampleConnection with replication_sender :=
            { exampleConnection.replication_sender with
              to_finalize := [(5, 7, ReplicationMessageData.actions 1)] } } 0
      = .error .invariantViolation) ∧
    ((({ exampleConnection with replication_sender :=
            { exampleConnection.replication_sender with
              to_finalize := [(5, 7, ReplicationMessageData.actions 1)] } }
        : Connection).replication_sender.to_finalize).all
          (fun e => decide (e.1 ≠ EntityUpdatesChannelKind)) = true) ∧
    channelGivesId exampleConnection EntityUpdatesChannelKind = true := by
  refine ⟨?_, ?_, ?_⟩ <;> rfl

/-- Witness for C9 at a concrete connection whose batch sends one `Updates`
message on the updates channel. -/
theorem buffer_replication_message_id_requirement_witness :
    (Connection.buffer_replication_messages
        { exampleConnection with replication_sender :=
            { exampleConnection.replication_sender with
              to_finalize := [(EntityUpdatesChannelKind, 7, ReplicationMessageData.updates 3)] } } 1
      = .error .invariantViolation ↔
      ∃ e ∈ ({ exampleConnection with replication_sender :=
            { exampleConnection.replication_sender with
              to_finalize := [(EntityUpdatesChannelKind, 7, ReplicationMessageData.updates 3)] } }
          : Connection).replication_sender.to_finalize,
        channelGivesId { exampleConnection with replication_sender :=
            { exampleConnection.replication_sender with
              to_finalize := [(EntityUpdatesChannelKind, 7, ReplicationMessageData.updates 3)] } } e.1 = false) :=
  (buffer_replication_message_id_requirement
    { exampleConnection with replication_sender :=
        { exampleConnection.replication_sender with
          to_finalize := [(EntityUpdatesChannelKind, 7, ReplicationMessageData.updates 3)] } } 1
    rfl (by decide)).1

/-- Witness for C5 at a concrete connection with one pending pong. -/
theorem send_packets_pong_time_overwrite_witness :
    exampleConnectionPong.message_manager.send_fails = false ∧
    ∃ sync c2, exampleConnectionPong.send_packets { now := 9, ready_to_send := true }
        { tick := 3 } = .ok (exampleConnectionPong.message_manager.outbox ++ sync, c2) :=
  ⟨rfl, by
    obtain ⟨sync, c2, h1, _⟩ := send_packets_pong_time_overwrite exampleConnectionPong
      { now := 9, ready_to_send := true } { tick := 3 } rfl rfl
    exact ⟨sync, c2, h1⟩⟩

theorem find_key_append_single {β : Type} (l : List (ClientId × β)) (j : ClientId) (cv : β)
    (id : ClientId) :
    (l ++ [(j, cv)]).find? (fun p => p.1 == id)
      = match l.find? (fun p => p.1 == id) with
        | Option.some x => some x
        | Option.none => if j == id then some (j, cv) else Option.none := by
  rw [List.find?_append]
  rcases hf : l.find? (fun p => p.1 == id) with _ | x <;> rw [hf] <;>
    cases hj : (j == id) <;> simp [List.find?, hj, Option.or]

theorem find_key_filter_self {β : Type} (l : List (ClientId × β)) (j : ClientId) :
    (l.filter (fun p => p.1 != j)).find? (fun p => p.1 == j) = Option.none := by
  rw [List.find?_filter]
  refine List.find?_eq_none.mpr ?_
  intro x _
  simp [bne]

theorem find_key_filter_ne {β : Type} (l : List (ClientId × β)) (j id : ClientId)
    (hne : (j == id) = false) :
    (l.filter (fun p => p.1 != j)).find? (fun p => p.1 == id)
      = l.find? (fun p => p.1 == id) := by
  rw [List.find?_filter]
  congr 1
  funext a
  cases h2 : (a.1 == id) with
  | false => simp [h2]
  | true =>
    have ha : a.1 = id := eq_of_beq h2
    have hj2 : j ≠ id := by
      intro hcon
      rw [hcon] at hne
      simp at hne
    simp [bne, ha, h2]
    exact Ne.symm hj2

theorem runOps_membership (pc : PingConfig) : ∀ (ops : List MgrOp) (m : ConnectionManager),
    goodRegistry m.channel_registry = true →
    ∃ m2, ConnectionManager.runOps pc m ops = some m2 ∧
      m2.channel_registry = m.channel_registry ∧
      ∀ id, (m2.getConn id).isSome = liveAfterFrom ((m.getConn id).isSome) ops id := by
  intro ops
  induction ops with
  | nil =>
    intro m hg
    exact ⟨m, rfl, rfl, fun id => rfl⟩
  | cons op rest ih =>
    intro m hg
    cases op with
    | add j =>
      cases hc : m.getConn j with
      | some cv =>
        obtain ⟨m2, h1, h2, h3⟩ := ih m hg
        refine ⟨m2, ?_, h2, ?_⟩
        · rw [ConnectionManager.runOps]
          simp only [ConnectionManager.applyOp, ConnectionManager.add, hc]
          exact h1
        · intro id
          rw [h3 id, liveAfterFrom, liveAfterFrom, List.foldl_cons]
          congr 1
          cases hj : (j == id) with
          | false => simp [hj]
          | true =>
            have : j = id := eq_of_beq hj
            subst this
            simp [hc]
      | none =>
        have hnew : ∃ cv, Connection.new m.channel_registry pc = some cv := by
          have h := connection_new_isSome m.channel_registry pc
          rw [hg] at h
          cases hcn : Connection.new m.channel_registry pc
          · rw [hcn] at h; cases h
          · exact ⟨_, rfl⟩
        obtain ⟨cv, hcv⟩ := hnew
        obtain ⟨m2, h1, h2, h3⟩ := ih
          { m with
            connections := (m.connections
              ++ [(j, { cv with events := cv.events.push_connection })]),
            new_clients := (m.new_clients ++ [j]) } hg
        refine ⟨m2, ?_, h2, ?_⟩
        · rw [ConnectionManager.runOps]
          simp only [ConnectionManager.applyOp, ConnectionManager.add, hc, hcv]
          exact h1
        · intro id
          rw [h3 id, liveAfterFrom, liveAfterFrom, List.foldl_cons]
          congr 1
          show ((ConnectionManager.getConn _ id)).isSome = _
          rw [ConnectionManager.getConn]
          simp only
          rw [find_key_append_single]
          rcases hfind : m.connections.find? (fun p => p.1 == id) with _ | x
          · rw [ConnectionManager.getConn, hfind]
            cases hj : (j == id) <;> simp [hj]
          · rw [ConnectionManager.getConn, hfind]
            cases hj : (j == id) <;> simp [hj]
    | remove j =>
      obtain ⟨m2, h1, h2, h3⟩ := ih (m.remove j) hg
      refine ⟨m2, ?_, h2, ?_⟩
      · rw [ConnectionManager.runOps]
        simp only [ConnectionManager.applyOp]
        exact h1
      · intro id
        rw [h3 id, liveAfterFrom, liveAfterFrom, List.foldl_cons]
        congr 1
        rw [ConnectionManager.getConn, ConnectionManager.remove]
        simp only
        cases hj : (j == id) with
        | false =>
          rw [find_key_filter_ne _ _ _ hj, ← ConnectionManager.getConn]
          simp
        | true =>
          have : j = id := eq_of_beq hj
          subst this
          rw [find_key_filter_self]
          simp

/-- Claim C6 (amended): for every sequence of `add`/`remove` operations the
connection set is exactly the peers added minus those removed — `add` of a
present peer is a complete no-op and `remove` of an absent peer leaves the
connection set unchanged (though it still records a disconnect event). -/
theorem connection_set_add_remove (registry : ChannelRegistry) (pc : PingConfig)
    (ops : List MgrOp) (id : ClientId)
    (hgood : goodRegistry registry = true) :
    (∃ m, ConnectionManager.runOps pc (ConnectionManager.new registry) ops = some m ∧
      ((m.getConn id).isSome = liveAfter ops id)) ∧
    (∀ (m2 : ConnectionManager) j, (m2.getConn j).isSome = true → m2.add j pc = some m2) ∧
    (∀ (m2 : ConnectionManager) j, m2.getConn j = Option.none →
      (m2.remove j).connections = m2.connections) := by
  refine ⟨?_, ?_, ?_⟩
  · obtain ⟨m2, h1, _, h3⟩ := runOps_membership pc ops (ConnectionManager.new registry) hgood
    exact ⟨m2, h1, h3 id⟩
  · intro m2 j h
    cases hc : m2.getConn j with
    | none => rw [hc] at h; cases h
    | some cv => simp [ConnectionManager.add, hc]
  · intro m2 j h
    have hall : ∀ a ∈ m2.connections, (a.1 != j) = true := by
      intro a ha
      rw [ConnectionManager.getConn] at h
      rcases hf : m2.connections.find? (fun p => p.1 == j) with _ | x
      · have hnone := List.find?_eq_none.mp hf a ha
        simpa [bne] using hnone
      · rw [hf] at h
        simp at h
    rw [ConnectionManager.remove]
    simp only
    exact List.filter_eq_self.mpr hall

/-- Counterexample to claim C6 as stated: removing a peer that was never
connected is not a no-op — it records a disconnect event for that peer. -/
theorem remove_absent_records_disconnect :
    ((ConnectionManager.new exampleRegistry).remove 3).events.disconnects = [3] ∧
    (ConnectionManager.new exampleRegistry).events.disconnects = [] ∧
    (ConnectionManager.new exampleRegistry).remove 3 ≠ ConnectionManager.new exampleRegistry := by
  refine ⟨rfl, rfl, ?_⟩
  intro h
  have h2 := congrArg (fun m => m.events.disconnects) h
  simp only at h2
  cases h2

/-- Witness for C6 at the example registry and a concrete operation list. -/
theorem connection_set_add_remove_witness :
    goodRegistry exampleRegistry = true ∧
    (∃ m, ConnectionManager.runOps examplePingConfig (ConnectionManager.new exampleRegistry)
        [MgrOp.add 1, MgrOp.add 1, MgrOp.remove 2, MgrOp.add 2, MgrOp.remove 1] = some m ∧
      ((m.getConn 1).isSome
        = liveAfter [MgrOp.add 1, MgrOp.add 1, MgrOp.remove 2, MgrOp.add 2, MgrOp.remove 1] 1)) :=
  ⟨by decide,
   (connection_set_add_remove exampleRegistry examplePingConfig
      [MgrOp.add 1, MgrOp.add 1, MgrOp.remove 2, MgrOp.add 2, MgrOp.remove 1] 1 (by decide)).1⟩

theorem buffer_message_ok_of_send_ok (c : Connection) (msg : AppMessage) (ch : ChannelKind)
    (h : c.send_ok ch = true) :
    ∃ nid, c.buffer_message msg ch = .ok
      { c with message_manager := { c.message_manager with
          next_message_id := nid,
          outbox := c.message_manager.outbox
            ++ [(ch, WireMessage.server (ServerMessage.message msg))] } } := by
  rw [Connection.send_ok, Bool.and_eq_true, Bool.not_eq_true'] at h
  obtain ⟨oid, nid, hbs⟩ := buffer_send_ok c.message_manager
    (WireMessage.server (ServerMessage.message msg)) ch h.1 h.2
  refine ⟨nid, ?_⟩
  rw [Connection.buffer_message]
  rw [hbs]

theorem buffer_message_err_of_not_send_ok (c : Connection) (msg : AppMessage)
    (ch : ChannelKind) (h : c.send_ok ch = false) :
    c.buffer_message msg ch = .error .transportFailure := by
  rcases hlook : c.message_manager.channel_registry.lookup ch with _ | cfg
  · rw [Connection.buffer_message, MessageManager.buffer_send, hlook]
  · have hsf : c.message_manager.send_fails = true := by
      rw [Connection.send_ok, hlook] at h
      simp at h
      exact h
    rw [Connection.buffer_message, MessageManager.buffer_send, hlook]
    simp [hsf]

theorem bufferForced_outbox (c : Connection) (msg : AppMessage) (ch : ChannelKind)
    (h : c.send_ok ch = true) :
    (c.bufferForced msg ch).message_manager.outbox
      = c.message_manager.outbox ++ [(ch, WireMessage.server (ServerMessage.message msg))] := by
  obtain ⟨nid, hok⟩ := buffer_message_ok_of_send_ok c msg ch h
  rw [Connection.bufferForced, hok]

theorem fanout_ok_iff (msg : AppMessage) (ch : ChannelKind) (target : NetworkTarget) :
    ∀ l, ((fanout msg ch target l).2 = Option.none ↔
      ∀ p ∈ l, target.should_send_to p.1 = true → p.2.send_ok ch = true) := by
  intro l
  induction l with
  | nil => simp [fanout]
  | cons p rest ih =>
    cases hs : target.should_send_to p.1 with
    | false =>
      have hfan : (fanout msg ch target (p :: rest)).2 = (fanout msg ch target rest).2 := by
        simp only [fanout, hs, Bool.false_eq_true, if_false]
      rw [hfan, ih]
      constructor
      · intro hall x hx hsx
        rcases List.mem_cons.mp hx with rfl | hx2
        · rw [hs] at hsx; cases hsx
        · exact hall x hx2 hsx
      · intro hall x hx hsx
        exact hall x (List.mem_cons_of_mem p hx) hsx
    | true =>
      cases hko : p.2.send_ok ch with
      | false =>
        have herr := buffer_message_err_of_not_send_ok p.2 msg ch hko
        simp only [fanout, hs, if_true, herr]
        constructor
        · intro hcon; cases hcon
        · intro hall
          have := hall p (List.mem_cons_self p rest) hs
          rw [hko] at this
          cases this
      | true =>
        obtain ⟨nid, hok⟩ := buffer_message_ok_of_send_ok p.2 msg ch hko
        have hfan : (fanout msg ch target (p :: rest)).2 = (fanout msg ch target rest).2 := by
          simp only [fanout, hs, if_true, hok]
        rw [hfan, ih]
        constructor
        · intro hall x hx hsx
          rcases List.mem_cons.mp hx with rfl | hx2
          · exact hko
          · exact hall x hx2 hsx
        · intro hall x hx hsx
          exact hall x (List.mem_cons_of_mem p hx) hsx

theorem fanout_all_ok (msg : AppMessage) (ch : ChannelKind) (target : NetworkTarget) :
    ∀ l, (∀ p ∈ l, target.should_send_to p.1 = true → p.2.send_ok ch = true) →
    fanout msg ch target l
      = (l.map (fun p => if target.should_send_to p.1 = true
            then (p.1, p.2.bufferForced msg ch) else p), Option.none) := by
  intro l
  induction l with
  | nil => intro _; rfl
  | cons p rest ih =>
    intro hall
    have hrest := ih (fun x hx hsx => hall x (List.mem_cons_of_mem p hx) hsx)
    cases hs : target.should_send_to p.1 with
    | false =>
      simp only [fanout, hs, Bool.false_eq_true, if_false, List.map_cons, hrest]
    | true =>
      have hko := hall p (List.mem_cons_self p rest) hs
      obtain ⟨nid, hok⟩ := buffer_message_ok_of_send_ok p.2 msg ch hko
      have hforced : p.2.bufferForced msg ch
          = { p.2 with message_manager := { p.2.message_manager with
              next_message_id := nid,
              outbox := p.2.message_manager.outbox
                ++ [(ch, WireMessage.server (ServerMessage.message msg))] } } := by
        rw [Connection.bufferForced, hok]
      simp only [fanout, hs, if_true, hok, List.map_cons, hrest, hforced]

theorem fanout_err_decomp (msg : AppMessage) (ch : ChannelKind) (target : NetworkTarget) :
    ∀ l, (fanout msg ch target l).2 ≠ Option.none →
    (fanout msg ch target l).2 = some TErr.transportFailure ∧
    ∃ pre p post, l = pre ++ p :: post ∧
      target.should_send_to p.1 = true ∧ p.2.send_ok ch = false ∧
      (∀ q ∈ pre, target.should_send_to q.1 = true → q.2.send_ok ch = true) ∧
      (fanout msg ch target l).1
        = pre.map (fun q => if target.should_send_to q.1 = true
            then (q.1, q.2.bufferForced msg ch) else q) ++ p :: post := by
  intro l
  induction l with
  | nil => intro hcon; exact absurd rfl hcon
  | cons p rest ih =>
    intro herr
    cases hs : target.should_send_to p.1 with
    | false =>
      rw [show (fanout msg ch target (p :: rest)
            = (p :: (fanout msg ch target rest).1, (fanout msg ch target rest).2)) from by
          simp only [fanout, hs, Bool.false_eq_true, if_false]]
      rw [show (fanout msg ch target (p :: rest)
            = (p :: (fanout msg ch target rest).1, (fanout msg ch target rest).2)) from by
          simp only [fanout, hs, Bool.false_eq_true, if_false]] at herr
      obtain ⟨he, pre, q, post, hl, hq1, hq2, hpre, hconn⟩ := ih herr
      refine ⟨he, p :: pre, q, post, by rw [hl]; rfl, hq1, hq2, ?_, ?_⟩
      · intro x hx hsx
        rcases List.mem_cons.mp hx with rfl | hx2
        · rw [hs] at hsx; cases hsx
        · exact hpre x hx2 hsx
      · simp only [List.map_cons, hs, Bool.false_eq_true, if_false, List.cons_append]
        rw [hconn]
    | true =>
      cases hko : p.2.send_ok ch with
      | false =>
        have hberr := buffer_message_err_of_not_send_ok p.2 msg ch hko
        rw [show (fanout msg ch target (p :: rest) = (p :: rest, some TErr.transportFailure))
            from by simp only [fanout, hs, if_true, hberr]]
        exact ⟨rfl, [], p, rest, rfl, hs, hko, fun q hq => absurd hq (List.not_mem_nil q), rfl⟩
      | true =>
        obtain ⟨nid, hok⟩ := buffer_message_ok_of_send_ok p.2 msg ch hko
        have hfan : fanout msg ch target (p :: rest)
            = ((p.1, p.2.bufferForced msg ch) :: (fanout msg ch target rest).1,
               (fanout msg ch target rest).2) := by
          have hforced : p.2.bufferForced msg ch
              = { p.2 with message_manager := { p.2.message_manager with
                  next_message_id := nid,
                  outbox := p.2.message_manager.outbox
                    ++ [(ch, WireMessage.server (ServerMessage.message msg))] } } := by
            rw [Connection.bufferForced, hok]
          simp only [fanout, hs, if_true, hok, hforced]
        rw [hfan] at herr ⊢
        obtain ⟨he, pre, q, post, hl, hq1, hq2, hpre, hconn⟩ := ih herr
        refine ⟨he, p :: pre, q, post, by rw [hl]; rfl, hq1, hq2, ?_, ?_⟩
        · intro x hx hsx
          rcases List.mem_cons.mp hx with rfl | hx2
          · exact hko
          · exact hpre x hx2 hsx
        · simp only [List.map_cons, hs, if_true, List.cons_append]
          rw [hconn]

theorem manager_buffer_message_eq (m : ConnectionManager) (msg : AppMessage)
    (ch : ChannelKind) (target : NetworkTarget) :
    m.buffer_message msg ch target
      = ({ m with connections := (fanout msg ch target m.connections).1 },
         (fanout msg ch target m.connections).2) := by
  rw [ConnectionManager.buffer_message]

/-- Claim C8: `buffer_message` enqueues one clone of the wrapped message on
every connection matching the target and on no other; it fails fast — the
first per-connection failure is propagated, connections visited before it keep
their buffered clone, and the failing connection and all later ones are left
untouched. -/
theorem buffer_message_fanout_fail_fast (m : ConnectionManager) (msg : AppMessage)
    (ch : ChannelKind) (target : NetworkTarget) :
    ((m.buffer_message msg ch target).2 = Option.none ↔
      ∀ p ∈ m.connections, target.should_send_to p.1 = true → p.2.send_ok ch = true) ∧
    ((m.buffer_message msg ch target).2 = Option.none →
      (m.buffer_message msg ch target).1.connections
        = m.connections.map (fun p => if target.should_send_to p.1 = true
            then (p.1, p.2.bufferForced msg ch) else p)) ∧
    (∀ (c : Connection), c.send_ok ch = true →
      (c.bufferForced msg ch).message_manager.outbox
        = c.message_manager.outbox ++ [(ch, WireMessage.server (ServerMessage.message msg))]) ∧
    ((m.buffer_message msg ch target).2 ≠ Option.none →
      (m.buffer_message msg ch target).2 = some TErr.transportFailure ∧
      ∃ pre p post, m.connections = pre ++ p :: post ∧
        target.should_send_to p.1 = true ∧ p.2.send_ok ch = false ∧
        (∀ q ∈ pre, target.should_send_to q.1 = true → q.2.send_ok ch = true) ∧
        (m.buffer_message msg ch target).1.connections
          = pre.map (fun q => if target.should_send_to q.1 = true
              then (q.1, q.2.bufferForced msg ch) else q) ++ p :: post) := by
  rw [manager_buffer_message_eq]
  refine ⟨fanout_ok_iff msg ch target m.connections, ?_, ?_, ?_⟩
  · intro hnone
    have := fanout_all_ok msg ch target m.connections
      ((fanout_ok_iff msg ch target m.connections).mp hnone)
    rw [this]
  · exact fun c hc => bufferForced_outbox c msg ch hc
  · intro herr
    exact fanout_err_decomp msg ch target m.connections herr

/-- Witness for C8: the fan-out over the example manager succeeds. -/
theorem buffer_message_fanout_fail_fast_witness :
    (exampleManager2.buffer_message
        { payload := 4, entities := [], kind := InputMessageKind.none,
          inputTick := 0, inputVal := 0 } 2 NetworkTarget.all).2 = Option.none :=
  (buffer_message_fanout_fail_fast exampleManager2
    { payload := 4, entities := [], kind := InputMessageKind.none,
      inputTick := 0, inputVal := 0 } 2 NetworkTarget.all).1.mpr (by decide)

theorem assignIds_bounds : ∀ (batch : List (ChannelKind × GroupId × ReplicationMessageData))
    (n : MessageId),
    (∀ e ∈ (assignIds n batch).1, n ≤ e.1 ∧ e.1 < (assignIds n batch).2) ∧
    n ≤ (assignIds n batch).2 := by
  intro batch
  induction batch with
  | nil => intro n; exact ⟨fun e he => absurd he (List.not_mem_nil e), Nat.le_refl n⟩
  | cons e rest ih =>
    intro n
    have ihn := ih (n + 1)
    constructor
    · intro x hx
      rw [assignIds] at hx ⊢
      rcases hd : e.2.2 with v | v <;> rw [hd] at hx <;> simp only at hx ⊢
      · have := ihn.1 x hx
        exact ⟨Nat.le_of_succ_le this.1, this.2⟩
      · rcases List.mem_cons.mp hx with rfl | hx2
        · exact ⟨Nat.le_refl n, Nat.lt_of_lt_of_le (Nat.lt_succ_self n) ihn.2⟩
        · have := ihn.1 x hx2
          exact ⟨Nat.le_of_succ_le this.1, this.2⟩
    · rw [assignIds]
      exact Nat.le_of_succ_le ihn.2

/-- `recv_packet` on a one-packet reader, written out. -/
theorem recv_packet_char (c : Connection) (p : Packet) (rest : List Packet) (bt : Nat) :
    c.recv_packet (p :: rest) bt = .ok ((),
      { c with
        message_manager := { c.message_manager with
          inbox := c.message_manager.inbox ++ p.contents,
          pending_acks := p.acked_ids },
        replication_sender := c.replication_sender.recv_update_acks
          c.message_manager.pending_acks bt }, rest) := by
  rw [Connection.recv_packet]
  simp [MessageManager.recv_packet]

theorem ack_inv_step_buffer (c c2 : Connection) (s : AckReplay) (tick : Tick)
    (batch : List (ChannelKind × GroupId × ReplicationMessageData))
    (hinv : AckInv c s)
    (hok : c.applyConnEvent (ConnEvent.buffer_repl tick batch) = .ok c2) :
    AckInv c2 (s.step (ConnEvent.buffer_repl tick batch)) := by
  obtain ⟨h1, h2, h3, h4, h5, h6, h7⟩ := hinv
  rw [Connection.applyConnEvent, Connection.buffer_replication_messages] at hok
  simp only [ReplicationSender.finalize] at hok
  have hchar := sendRepl_fold_ok_char batch
    { c with replication_sender := { c.replication_sender with to_finalize := [] } } c2 hok
  obtain ⟨m1, m2, m3, m4, m5, m6, m7⟩ := hchar
  have m1c : c2.replication_sender.updates_message_id_to_group_id
      = c.replication_sender.updates_message_id_to_group_id
        ++ (assignIds c.message_manager.next_message_id batch).1 := m1
  have m2c : c2.message_manager.next_message_id
      = (assignIds c.message_manager.next_message_id batch).2 := m2
  have m3c : c2.message_manager.pending_acks = c.message_manager.pending_acks := m3
  have m4c : c2.message_manager.send_fails = c.message_manager.send_fails := m4
  have hbounds := assignIds_bounds batch s.next_id
  have hfresh : (assignIds s.next_id batch).1.filter
      (fun e => decide (e.1 ∉ s.processed)) = (assignIds s.next_id batch).1 := by
    refine List.filter_eq_self.mpr ?_
    intro e he
    refine decide_eq_true ?_
    intro hmem
    exact absurd (Nat.lt_of_lt_of_le (h6 e.1 hmem) (hbounds.1 e he).1) (Nat.lt_irrefl e.1)
  refine ⟨?_, ?_, ?_, ?_, ?_, ?_, ?_⟩
  · show c2.replication_sender.updates_message_id_to_group_id
      = (s.sent_updates ++ (assignIds s.next_id batch).1).filter
          (fun e => decide (e.1 ∉ s.processed))
    rw [m1c, h1, h3, List.filter_append, hfresh]
  · show c2.message_manager.pending_acks = s.pending
    rw [m3c, h2]
  · show c2.message_manager.next_message_id = (assignIds s.next_id batch).2
    rw [m2c, h3]
  · rw [m4c]
    exact h4
  · show ∀ e ∈ s.sent_updates ++ (assignIds s.next_id batch).1,
      e.1 < (assignIds s.next_id batch).2
    intro e he
    rcases List.mem_append.mp he with hold | hnew
    · exact Nat.lt_of_lt_of_le (h5 e hold) hbounds.2
    · exact (hbounds.1 e hnew).2
  · show ∀ i ∈ s.processed, i < (assignIds s.next_id batch).2
    intro i hi
    exact Nat.lt_of_lt_of_le (h6 i hi) hbounds.2
  · show ∀ i ∈ s.pending, i < (assignIds s.next_id batch).2
    intro i hi
    exact Nat.lt_of_lt_of_le (h7 i hi) hbounds.2

theorem ack_inv_step_recv (c c2 : Connection) (s : AckReplay) (p : Packet)
    (hinv : AckInv c s)
    (hacks : p.acked_ids.all (fun i => decide (i < s.next_id)) = true)
    (hok : c.applyConnEvent (ConnEvent.recv_pkt p) = .ok c2) :
    AckInv c2 (s.step (ConnEvent.recv_pkt p)) := by
  obtain ⟨h1, h2, h3, h4, h5, h6, h7⟩ := hinv
  rw [Connection.applyConnEvent, recv_packet_char] at hok
  cases hok
  refine ⟨?_, rfl, h3, h4, h5, ?_, ?_⟩
  · show (c.replication_sender.recv_update_acks c.message_manager.pending_acks 0
        ).updates_message_id_to_group_id = _
    rw [ReplicationSender.recv_update_acks]
    simp only
    rw [h1, List.filter_filter]
    simp only [AckReplay.step]
    apply List.filter_congr
    intro e _
    rw [h2]
    by_cases hp : e.1 ∈ s.pending
    · simp [hp, List.contains, List.mem_append]
    · by_cases hq : e.1 ∈ s.processed
      · simp [hp, hq, List.contains, List.mem_append]
      · simp [hp, hq, List.contains, List.mem_append]
  · simp only [AckReplay.step]
    intro i hi
    rcases List.mem_append.mp hi with hold | hpend
    · exact h6 i hold
    · exact h7 i hpend
  · simp only [AckReplay.step]
    intro i hi
    have := List.all_eq_true.mp hacks i hi
    exact of_decide_eq_true this

theorem ack_inv_run : ∀ (h : List ConnEvent) (c : Connection) (s : AckReplay),
    AckInv c s → validAcksFrom s.next_id h = true →
    ∀ c2, Connection.runConnEvents c h = .ok c2 →
    AckInv c2 (h.foldl AckReplay.step s) := by
  intro h
  induction h with
  | nil =>
    intro c s hinv _ c2 hrun
    cases hrun
    exact hinv
  | cons e rest ih =>
    intro c s hinv hval c2 hrun
    rw [Connection.runConnEvents] at hrun
    rcases hstep : c.applyConnEvent e with er | c1
    · rw [hstep] at hrun; cases hrun
    · rw [hstep] at hrun
      simp only at hrun
      rw [List.foldl_cons]
      cases e with
      | buffer_repl tick batch =>
        have hinv1 := ack_inv_step_buffer c c1 s tick batch hinv hstep
        rw [validAcksFrom] at hval
        have hnext : (AckReplay.step s (ConnEvent.buffer_repl tick batch)).next_id
            = (assignIds s.next_id batch).2 := rfl
        exact ih c1 _ hinv1 (by rw [hnext]; exact hval) c2 hrun
      | recv_pkt p =>
        rw [validAcksFrom, Bool.and_eq_true] at hval
        have hinv1 := ack_inv_step_recv c c1 s p hinv hval.1 hstep
        exact ih c1 _ hinv1 (by exact hval.2) c2 hrun

/-- Claim C2: a `MessageId` is a key of `updates_message_id_to_group_id` iff
it was returned by the transport for an `Updates` replication send
(`Actions` sends never insert) and its acknowledgment has not yet been
processed by `recv_packet`'s ack notification — processing an ack removes
exactly that entry and no other. -/
theorem updates_map_tracks_unacked_updates (registry : ChannelRegistry) (pc : PingConfig)
    (h : List ConnEvent) (c0 c : Connection)
    (hnew : Connection.new registry pc = some c0)
    (hacks : validAcksFrom 0 h = true)
    (hrun : Connection.runConnEvents c0 h = .ok c) :
    c.replication_sender.updates_message_id_to_group_id
      = (ackReplay h).sent_updates.filter
          (fun e => decide (e.1 ∉ (ackReplay h).processed)) := by
  have hinv0 : AckInv c0 AckReplay.init := by
    rw [Connection.new] at hnew
    rcases hlook : registry.lookup EntityUpdatesChannelKind with _ | cfg <;> rw [hlook] at hnew
    · cases hnew
    · by_cases hs : cfg.supports_ack_subscription = true
      · simp only [hs, if_true] at hnew
        cases hnew
        refine ⟨rfl, rfl, rfl, rfl, ?_, ?_, ?_⟩ <;>
          exact fun x hx => absurd hx (List.not_mem_nil x)
      · simp only [if_neg hs] at hnew
        cases hnew
  exact (ack_inv_run h c0 AckReplay.init hinv0 hacks c hrun).1

/-- Witness for C2 on `exampleHistory`. -/
theorem updates_map_tracks_unacked_updates_witness :
    validAcksFrom 0 exampleHistory = true ∧
    exampleConnectionAfter.replication_sender.updates_message_id_to_group_id
      = (ackReplay exampleHistory).sent_updates.filter
          (fun e => decide (e.1 ∉ (ackReplay exampleHistory).processed)) :=
  ⟨by decide,
   updates_map_tracks_unacked_updates exampleRegistry examplePingConfig exampleHistory
     exampleConnection exampleConnectionAfter rfl (by decide) rfl⟩

theorem process_message_char (tm : TimeManager) (ch : ChannelKind) (c : Connection)
    (e : Tick × ClientMessage) :
    (Connection.process_message tm ch c e).messages_to_rebroadcast
      = c.messages_to_rebroadcast
        ++ rebroadcastOfOne c.replication_receiver.remote_entity_map ch e.2 ∧
    (Connection.process_message tm ch c e).replication_receiver.remote_entity_map
      = c.replication_receiver.remote_entity_map := by
  rcases e with ⟨t, msg⟩
  cases msg with
  | message m target =>
    by_cases ht : target ≠ NetworkTarget.none
    · cases hk : (m.map_entities c.replication_receiver.remote_entity_map).kind <;>
        simp [Connection.process_message, rebroadcastOfOne, ht, hk]
    · cases hk : (m.map_entities c.replication_receiver.remote_entity_map).kind <;>
        simp [Connection.process_message, rebroadcastOfOne, ht, hk]
  | replication r =>
    simp [Connection.process_message, rebroadcastOfOne, ReplicationReceiver.recv_message]
  | sync sy => cases sy <;> simp [Connection.process_message, rebroadcastOfOne]

theorem process_msgs_fold_char (tm : TimeManager) (ch : ChannelKind) :
    ∀ (msgs : List (Tick × ClientMessage)) (c : Connection),
    (msgs.foldl (Connection.process_message tm ch) c).messages_to_rebroadcast
      = c.messages_to_rebroadcast
        ++ rebroadcastOfMsgs c.replication_receiver.remote_entity_map ch msgs ∧
    (msgs.foldl (Connection.process_message tm ch) c).replication_receiver.remote_entity_map
      = c.replication_receiver.remote_entity_map := by
  intro msgs
  induction msgs with
  | nil =>
    intro c
    simp [rebroadcastOfMsgs]
  | cons e rest ih =>
    intro c
    rw [List.foldl_cons]
    obtain ⟨hr, hm⟩ := process_message_char tm ch c e
    obtain ⟨ihr, ihm⟩ := ih (Connection.process_message tm ch c e)
    constructor
    · rw [ihr, hr, hm]
      simp [rebroadcastOfMsgs, List.append_assoc]
    · rw [ihm, hm]

theorem apply_fold_char (l : List (GroupId × Tick × ReplicationMessageData)) :
    ∀ (cw : Connection × World),
    ((l.foldl applyWorldStep cw).1).messages_to_rebroadcast
        = cw.1.messages_to_rebroadcast ∧
    ((l.foldl applyWorldStep cw).1).replication_receiver = cw.1.replication_receiver ∧
    ((l.foldl applyWorldStep cw).1).message_manager = cw.1.message_manager := by
  induction l with
  | nil => intro cw; exact ⟨rfl, rfl, rfl⟩
  | cons e rest ih =>
    intro cw
    rw [List.foldl_cons]
    exact ih (applyWorldStep cw e)

theorem process_channel_char (tm : TimeManager) (acc : Connection × World)
    (grp : ChannelKind × List (Tick × ClientMessage)) :
    ((Connection.process_channel tm acc grp).1).messages_to_rebroadcast
      = acc.1.messages_to_rebroadcast
        ++ rebroadcastOfMsgs acc.1.replication_receiver.remote_entity_map grp.1 grp.2 ∧
    ((Connection.process_channel tm acc grp).1).replication_receiver.remote_entity_map
      = acc.1.replication_receiver.remote_entity_map := by
  rw [Connection.process_channel]
  by_cases hemp : grp.2.isEmpty
  · simp only [hemp, if_true]
    have : grp.2 = [] := List.isEmpty_iff.mp hemp
    rw [this]
    simp [rebroadcastOfMsgs]
  · simp only [hemp, Bool.false_eq_true, if_false]
    obtain ⟨h1, h2, h3⟩ := apply_fold_char
      ((grp.2.foldl (Connection.process_message tm grp.1) acc.1
        ).replication_receiver.read_messages).1
      ({ grp.2.foldl (Connection.process_message tm grp.1) acc.1 with
          replication_receiver := ((grp.2.foldl (Connection.process_message tm grp.1) acc.1
            ).replication_receiver.read_messages).2 }, acc.2)
    obtain ⟨f1, f2⟩ := process_msgs_fold_char tm grp.1 grp.2 acc.1
    constructor
    · rw [h1]
      simp only [ReplicationReceiver.read_messages]
      exact f1
    · rw [h2]
      simp only [ReplicationReceiver.read_messages]
      exact f2

theorem receive_groups_fold_char (tm : TimeManager) :
    ∀ (groups : List (ChannelKind × List (Tick × ClientMessage))) (cw : Connection × World),
    ((groups.foldl (Connection.process_channel tm) cw).1).messages_to_rebroadcast
      = cw.1.messages_to_rebroadcast
        ++ rebroadcastOfInbox cw.1.replication_receiver.remote_entity_map groups ∧
    ((groups.foldl (Connection.process_channel tm) cw).1).replication_receiver.remote_entity_map
      = cw.1.replication_receiver.remote_entity_map := by
  intro groups
  induction groups with
  | nil =>
    intro cw
    simp [rebroadcastOfInbox]
  | cons g rest ih =>
    intro cw
    rw [List.foldl_cons]
    obtain ⟨h1, h2⟩ := process_channel_char tm cw g
    obtain ⟨ih1, ih2⟩ := ih (Connection.process_channel tm cw g)
    constructor
    · rw [ih1, h1, h2]
      simp [rebroadcastOfInbox, List.append_assoc]
    · rw [ih2, h2]

/-- The rebroadcast list `Connection::receive` leaves on the connection:
exactly the pre-existing entries followed by one entry per inbound
`Message`-variant message whose target is not `None` (entity-remapped, with
its original target and channel), in arrival order; replication and sync
messages contribute nothing. -/
theorem receive_rebroadcast_char (c : Connection) (w : World) (tm : TimeManager) :
    ((c.receive w tm).2.1).messages_to_rebroadcast
      = c.messages_to_rebroadcast
        ++ rebroadcastOfInbox c.replication_receiver.remote_entity_map
            c.message_manager.inbox := by
  rw [Connection.receive]
  simp only [MessageManager.read_messages]
  exact (receive_groups_fold_char tm c.message_manager.inbox
    ({ c with message_manager := { c.message_manager with inbox := [] } }, w)).1

theorem apply_fold_fst_indep : ∀ (l : List (GroupId × Tick × ReplicationMessageData))
    (c : Connection) (w w2 : World),
    ((l.foldl applyWorldStep (c, w)).1) = ((l.foldl applyWorldStep (c, w2)).1) := by
  intro l
  induction l with
  | nil => intro c w w2; rfl
  | cons e rest ih =>
    intro c w w2
    rw [List.foldl_cons, List.foldl_cons]
    show ((rest.foldl applyWorldStep
        ({ c with events := c.events.push_replication e.1 e.2.2 }, (applyWorldStep (c, w) e).2)).1)
      = ((rest.foldl applyWorldStep
        ({ c with events := c.events.push_replication e.1 e.2.2 }, (applyWorldStep (c, w2) e).2)).1)
    exact ih _ _ _

theorem process_channel_fst_indep (tm : TimeManager) (c : Connection) (w w2 : World)
    (grp : ChannelKind × List (Tick × ClientMessage)) :
    (Connection.process_channel tm (c, w) grp).1
      = (Connection.process_channel tm (c, w2) grp).1 := by
  rw [Connection.process_channel, Connection.process_channel]
  by_cases hemp : grp.2.isEmpty
  · simp only [hemp, if_true]
  · simp only [hemp, Bool.false_eq_true, if_false]
    exact apply_fold_fst_indep _ _ _ _

theorem receive_fold_fst_indep (tm : TimeManager) :
    ∀ (groups : List (ChannelKind × List (Tick × ClientMessage)))
    (c : Connection) (w w2 : World),
    ((groups.foldl (Connection.process_channel tm) (c, w)).1)
      = ((groups.foldl (Connection.process_channel tm) (c, w2)).1) := by
  intro groups
  induction groups with
  | nil => intro c w w2; rfl
  | cons g rest ih =>
    intro c w w2
    rw [List.foldl_cons, List.foldl_cons]
    have h1 := process_channel_fst_indep tm c w w2 g
    calc ((rest.foldl (Connection.process_channel tm) (Connection.process_channel tm (c, w) g)).1)
        = ((rest.foldl (Connection.process_channel tm)
            ((Connection.process_channel tm (c, w) g).1,
             (Connection.process_channel tm (c, w) g).2)).1) := rfl
      _ = ((rest.foldl (Connection.process_channel tm)
            ((Connection.process_channel tm (c, w) g).1,
             (Connection.process_channel tm (c, w2) g).2)).1) := ih _ _ _
      _ = ((rest.foldl (Connection.process_channel tm)
            ((Connection.process_channel tm (c, w2) g).1,
             (Connection.process_channel tm (c, w2) g).2)).1) := by rw [h1]
      _ = ((rest.foldl (Connection.process_channel tm)
            (Connection.process_channel tm (c, w2) g)).1) := rfl

/-- The connection `receive` returns does not depend on the world argument. -/
theorem receive_conn_world_indep (c : Connection) (w w2 : World) (tm : TimeManager) :
    (c.receive w tm).2.1 = (c.receive w2 tm).2.1 := by
  rw [Connection.receive, Connection.receive]
  simp only [MessageManager.read_messages]
  rw [receive_fold_fst_indep tm c.message_manager.inbox
    { c with message_manager := { c.message_manager with inbox := [] } } w w2]

theorem afterReceive_mm (c : Connection) (tm : TimeManager) :
    (c.afterReceive tm).message_manager = { c.message_manager with inbox := [] } := by
  show ((c.receive [] tm).2.1).message_manager = _
  exact receive_mm_outbox_like c [] tm

theorem afterReceive_send_ok (c : Connection) (tm : TimeManager) (ch : ChannelKind) :
    (c.afterReceive tm).send_ok ch = c.send_ok ch := by
  rw [Connection.send_ok, Connection.send_ok, afterReceive_mm]

theorem mgrReceiveStep_char (tm : TimeManager)
    (acc : List (ClientId × Connection) × ServerEvents ×
      List (AppMessage × NetworkTarget × ChannelKind) × World)
    (p : ClientId × Connection) :
    mgrReceiveStep tm acc p
      = (acc.1 ++ [(p.1, { (p.2.receive acc.2.2.2 tm).2.1 with messages_to_rebroadcast := [] })],
         acc.2.1.push_events p.1 (p.2.receive acc.2.2.2 tm).1,
         acc.2.2.1 ++ ((p.2.receive acc.2.2.2 tm).2.1).messages_to_rebroadcast,
         (p.2.receive acc.2.2.2 tm).2.2) := rfl

theorem mgr_pass1_char (tm : TimeManager) : ∀ (conns : List (ClientId × Connection))
    (acc0 : List (ClientId × Connection)) (ev0 : ServerEvents)
    (rb0 : List (AppMessage × NetworkTarget × ChannelKind)) (w0 : World),
    ∃ ev w, conns.foldl (mgrReceiveStep tm) (acc0, ev0, rb0, w0)
      = (acc0 ++ conns.map (fun p => (p.1, p.2.afterReceive tm)), ev,
         rb0 ++ (conns.map (fun p => connRebroadcasts p.2)).join, w) := by
  intro conns
  induction conns with
  | nil =>
    intro acc0 ev0 rb0 w0
    exact ⟨ev0, w0, by simp⟩
  | cons p rest ih =>
    intro acc0 ev0 rb0 w0
    rw [List.foldl_cons, mgrReceiveStep_char]
    have hconn : (p.2.receive w0 tm).2.1 = (p.2.receive [] tm).2.1 :=
      receive_conn_world_indep p.2 w0 [] tm
    have hrb : ((p.2.receive w0 tm).2.1).messages_to_rebroadcast = connRebroadcasts p.2 := by
      rw [receive_rebroadcast_char]
      rfl
    obtain ⟨ev, w, hih⟩ := ih
      (acc0 ++ [(p.1, { (p.2.receive w0 tm).2.1 with messages_to_rebroadcast := [] })])
      (ServerEvents.push_events ev0 p.1 (p.2.receive w0 tm).1)
      (rb0 ++ ((p.2.receive w0 tm).2.1).messages_to_rebroadcast)
      ((p.2.receive w0 tm).2.2)
    refine ⟨ev, w, ?_⟩
    rw [hih, hrb, hconn]
    simp [Connection.afterReceive, List.append_assoc]

theorem buffer_send_ok_preserves (mm : MessageManager) (msg : WireMessage) (ch : ChannelKind)
    (oid : Option MessageId) (mm2 : MessageManager)
    (h : mm.buffer_send msg ch = .ok (oid, mm2)) :
    mm2.channel_registry = mm.channel_registry ∧ mm2.send_fails = mm.send_fails := by
  rw [MessageManager.buffer_send] at h
  rcases hlook : mm.channel_registry.lookup ch with _ | cfg <;> rw [hlook] at h
  · cases h
  · by_cases hsf : mm.send_fails = true
    · simp [hsf] at h
    · rw [Bool.not_eq_true] at hsf
      simp only [hsf, Bool.false_eq_true, if_false] at h
      cases hg : cfg.gives_message_id <;> rw [hg] at h <;>
        simp only [if_true, Bool.false_eq_true, if_false] at h <;>
        cases h <;> exact ⟨rfl, hsf.symm⟩

theorem buffer_message_ok_preserves (c : Connection) (msg : AppMessage) (ch : ChannelKind)
    (c2 : Connection) (h : c.buffer_message msg ch = .ok c2) :
    c2.message_manager.channel_registry = c.message_manager.channel_registry ∧
    c2.message_manager.send_fails = c.message_manager.send_fails := by
  rw [Connection.buffer_message] at h
  rcases hbs : c.message_manager.buffer_send
      (WireMessage.server (ServerMessage.message msg)) ch with er | pr
  · rw [hbs] at h; cases h
  · rw [hbs] at h
    simp only at h
    cases h
    exact buffer_send_ok_preserves c.message_manager _ ch pr.1 pr.2 (by rw [hbs])

theorem bufferForced_send_ok (c : Connection) (msg : AppMessage) (ch ch2 : ChannelKind) :
    (c.bufferForced msg ch).send_ok ch2 = c.send_ok ch2 := by
  rw [Connection.bufferForced]
  rcases hbm : c.buffer_message msg ch with er | c2
  · rfl
  · obtain ⟨hreg, hsf⟩ := buffer_message_ok_preserves c msg ch c2 hbm
    rw [Connection.send_ok, Connection.send_ok, hreg, hsf]

theorem rebroadcastAll_char (w : World) :
    ∀ (rbl : List (AppMessage × NetworkTarget × ChannelKind)) (m : ConnectionManager),
    (∀ p ∈ m.connections, ∀ e ∈ rbl,
        e.2.1.should_send_to p.1 = true → p.2.send_ok e.2.2 = true) →
    ∃ m2, rebroadcastAll w m rbl = (m2, w, Option.none) ∧
      m2.connections = m.connections.map (fun p => (p.1, rblApply p.1 rbl p.2)) := by
  intro rbl
  induction rbl with
  | nil =>
    intro m hok
    refine ⟨m, rfl, ?_⟩
    have : (fun (p : ClientId × Connection) => (p.1, rblApply p.1 [] p.2))
        = (fun p => p) := by
      funext p
      rfl
    rw [this, List.map_id']
  | cons e rest ih =>
    intro m hok
    have hall : ∀ p ∈ m.connections, e.2.1.should_send_to p.1 = true →
        p.2.send_ok e.2.2 = true :=
      fun p hp hs => hok p hp e (List.mem_cons_self e rest) hs
    have hfan := fanout_all_ok e.1 e.2.2 e.2.1 m.connections hall
    have hbm := manager_buffer_message_eq m e.1 e.2.2 e.2.1
    rw [hfan] at hbm
    have hstep : rebroadcastAll w m (e :: rest)
        = rebroadcastAll w { m with connections := (m.connections.map
            (fun p => if e.2.1.should_send_to p.1 = true
              then (p.1, p.2.bufferForced e.1 e.2.2) else p)) } rest := by
      rw [rebroadcastAll, hbm]
    obtain ⟨m2, hrun, hconns⟩ := ih
      { m with connections := (m.connections.map
          (fun p => if e.2.1.should_send_to p.1 = true
            then (p.1, p.2.bufferForced e.1 e.2.2) else p)) }
      (by
        intro p hp e2 he2 hs
        rcases List.mem_map.mp hp with ⟨q, hq, hqe⟩
        subst hqe
        by_cases hsq : e.2.1.should_send_to q.1 = true
        · rw [if_pos hsq] at hs ⊢
          dsimp only at hs ⊢
          rw [bufferForced_send_ok]
          exact hok q hq e2 (List.mem_cons_of_mem e he2) hs
        · rw [if_neg hsq] at hs ⊢
          exact hok q hq e2 (List.mem_cons_of_mem e he2) hs)
    refine ⟨m2, ?_, ?_⟩
    · rw [hstep, hrun]
    · rw [hconns]
      simp only [List.map_map]
      apply List.map_congr_left
      intro p _
      by_cases hs : e.2.1.should_send_to p.1 = true
      · simp only [Function.comp, if_pos hs]
        rw [rblApply, rblApply, List.foldl_cons, if_pos hs]
      · simp only [Function.comp, if_neg hs]
        rw [rblApply, rblApply, List.foldl_cons, if_neg hs]

theorem rblApply_outbox (id : ClientId) :
    ∀ (rbl : List (AppMessage × NetworkTarget × ChannelKind)) (c : Connection),
    (∀ e ∈ rbl, e.2.1.should_send_to id = true → c.send_ok e.2.2 = true) →
    (rblApply id rbl c).message_manager.outbox
      = c.message_manager.outbox ++ rbl.filterMap (fun e =>
          if e.2.1.should_send_to id = true
          then some (e.2.2, WireMessage.server (ServerMessage.message e.1))
          else Option.none) := by
  intro rbl
  induction rbl with
  | nil => intro c _; simp [rblApply]
  | cons e rest ih =>
    intro c hok
    rw [rblApply, List.foldl_cons]
    by_cases hs : e.2.1.should_send_to id = true
    · rw [if_pos hs]
      have hko := hok e (List.mem_cons_self e rest) hs
      have := ih (c.bufferForced e.1 e.2.2) (by
        intro e2 he2 hs2
        rw [bufferForced_send_ok]
        exact hok e2 (List.mem_cons_of_mem e he2) hs2)
      rw [rblApply] at this
      rw [this, bufferForced_outbox c e.1 e.2.2 hko]
      simp [hs, List.append_assoc]
    · rw [if_neg hs]
      have := ih c (fun e2 he2 hs2 => hok e2 (List.mem_cons_of_mem e he2) hs2)
      rw [rblApply] at this
      rw [this]
      simp [hs]

/-- Counterexample to claim C3 as stated: a received native *input* message
whose target is not `None` IS queued for rebroadcast (`Connection::receive`
pushes any `Message` variant with a non-`None` target before classifying it by
input kind, line 353), and the manager pass re-dispatches it, so the idle peer
`2` ends up with the input message in its outbox. -/
theorem input_message_rebroadcast :
    nativeInputMsg.kind = InputMessageKind.native ∧
    ((inputMsgConnection.receive [] sampleTime).2.1).messages_to_rebroadcast
      = [(nativeInputMsg, NetworkTarget.all, 2)] ∧
    ((inputMsgManager.receive [] sampleTime).1.getConn 2).map
        (fun c => c.message_manager.outbox)
      = Option.some [(2, WireMessage.server (ServerMessage.message nativeInputMsg))] := by
  decide

/-- C3 (amended): during `Connection::receive` an inbound application message
with target `NetworkTarget.none` is never added to the rebroadcast list, and
replication and sync messages are never added; every other `Message`-variant
message - including input messages - contributes exactly one entity-remapped
entry with its original target and channel.  Provided every collected
rebroadcast can be buffered, the manager's receive pass re-dispatches each
collected message to exactly the peers matching its original target, on its
original channel. -/
theorem rebroadcast_exactly_matching_targets
    (m : ConnectionManager) (w : World) (tm : TimeManager)
    (hok : ∀ p ∈ m.connections, ∀ e ∈ allRebroadcasts m,
        e.2.1.should_send_to p.1 = true → p.2.send_ok e.2.2 = true) :
    (∀ c : Connection,
      ((c.receive w tm).2.1).messages_to_rebroadcast
        = c.messages_to_rebroadcast
          ++ rebroadcastOfInbox c.replication_receiver.remote_entity_map
              c.message_manager.inbox) ∧
    ∃ m2 w2, m.receive w tm = (m2, w2, Option.none) ∧
      m2.connections = m.connections.map (fun p =>
        (p.1, rblApply p.1 (allRebroadcasts m) (p.2.afterReceive tm))) ∧
      ∀ p ∈ m.connections,
        (rblApply p.1 (allRebroadcasts m) (p.2.afterReceive tm)).message_manager.outbox
          = p.2.message_manager.outbox
            ++ (allRebroadcasts m).filterMap (fun e =>
                if e.2.1.should_send_to p.1 = true
                then Option.some (e.2.2, WireMessage.server (ServerMessage.message e.1))
                else Option.none) := by
  constructor
  · intro c
    exact receive_rebroadcast_char c w tm
  · obtain ⟨ev, w1, hpass⟩ := mgr_pass1_char tm m.connections [] m.events [] w
    have hrecv : m.receive w tm
        = rebroadcastAll w1
            { m with
              connections := (m.connections.map (fun p => (p.1, p.2.afterReceive tm))),
              events := ev }
            (allRebroadcasts m) := by
      show rebroadcastAll
          (m.connections.foldl (mgrReceiveStep tm) ([], m.events, [], w)).2.2.2
          { m with
            connections := (m.connections.foldl (mgrReceiveStep tm) ([], m.events, [], w)).1,
            events := (m.connections.foldl (mgrReceiveStep tm) ([], m.events, [], w)).2.1 }
          (m.connections.foldl (mgrReceiveStep tm) ([], m.events, [], w)).2.2.1
        = _
      rw [hpass]
      rfl
    have hok1 : ∀ p ∈ (m.connections.map (fun p => (p.1, p.2.afterReceive tm))),
        ∀ e ∈ allRebroadcasts m,
        e.2.1.should_send_to p.1 = true → p.2.send_ok e.2.2 = true := by
      intro p hp e he hs
      rcases List.mem_map.mp hp with ⟨q, hq, hqe⟩
      subst hqe
      dsimp only at hs ⊢
      rw [afterReceive_send_ok]
      exact hok q hq e he hs
    obtain ⟨m2, hrun, hconns⟩ := rebroadcastAll_char w1 (allRebroadcasts m)
      { m with
        connections := (m.connections.map (fun p => (p.1, p.2.afterReceive tm))),
        events := ev }
      hok1
    refine ⟨m2, w1, ?_, ?_, ?_⟩
    · rw [hrecv, hrun]
    · rw [hconns]
      show (m.connections.map (fun p => (p.1, p.2.afterReceive tm))).map
          (fun p => (p.1, rblApply p.1 (allRebroadcasts m) p.2)) = _
      rw [List.map_map]
      apply List.map_congr_left
      intro p _
      rfl
    · intro p hp
      have hsend : ∀ e ∈ allRebroadcasts m, e.2.1.should_send_to p.1 = true →
          (p.2.afterReceive tm).send_ok e.2.2 = true := by
        intro e he hs
        rw [afterReceive_send_ok]
        exact hok p hp e he hs
      rw [rblApply_outbox p.1 (allRebroadcasts m) (p.2.afterReceive tm) hsend,
        afterReceive_mm]

/-- Witness for C3 on `inputMsgManager`. -/
theorem rebroadcast_exactly_matching_targets_witness :
    ∃ m2 w2, inputMsgManager.receive [] sampleTime = (m2, w2, Option.none) ∧
      m2.connections = inputMsgManager.connections.map (fun p =>
        (p.1, rblApply p.1 (allRebroadcasts inputMsgManager) (p.2.afterReceive sampleTime))) ∧
      ∀ p ∈ inputMsgManager.connections,
        (rblApply p.1 (allRebroadcasts inputMsgManager)
            (p.2.afterReceive sampleTime)).message_manager.outbox
          = p.2.message_manager.outbox
            ++ (allRebroadcasts inputMsgManager).filterMap (fun e =>
                if e.2.1.should_send_to p.1 = true
                then Option.some (e.2.2, WireMessage.server (ServerMessage.message e.1))
                else Option.none) :=
  (rebroadcast_exactly_matching_targets inputMsgManager [] sampleTime (by decide)).2

theorem bestEntry_cons (p : Nat → Bool) (e : Tick × Input) (l : List (Tick × Input)) :
    bestEntry p (e :: l)
      = match bestEntry p l with
        | Option.none => if p e.1 then some e else Option.none
        | Option.some a =>
          if p e.1 then (if a.1 < e.1 then some e else some a) else some a := rfl

theorem bestEntry_cons_false (p : Nat → Bool) (e : Tick × Input)
    (l : List (Tick × Input)) (hp : p e.1 = false) :
    bestEntry p (e :: l) = bestEntry p l := by
  rw [bestEntry_cons]
  rcases hb : bestEntry p l with _ | b <;> simp [hp]

theorem bestEntry_sat (p : Nat → Bool) :
    ∀ (l : List (Tick × Input)) (a : Tick × Input),
    bestEntry p l = some a → p a.1 = true := by
  intro l
  induction l with
  | nil => intro a ha; cases ha
  | cons e l ih =>
    intro a ha
    rw [bestEntry_cons] at ha
    rcases hb : bestEntry p l with _ | b <;> rw [hb] at ha <;> dsimp only at ha
    · by_cases hp : p e.1 = true
      · rw [if_pos hp] at ha
        cases Option.some.inj ha
        exact hp
      · rw [if_neg hp] at ha
        cases ha
    · by_cases hp : p e.1 = true
      · rw [if_pos hp] at ha
        by_cases hlt : b.1 < e.1
        · rw [if_pos hlt] at ha
          cases Option.some.inj ha
          exact hp
        · rw [if_neg hlt] at ha
          rw [← Option.some.inj ha]
          exact ih b hb
      · rw [if_neg hp] at ha
        rw [← Option.some.inj ha]
        exact ih b hb

theorem bestEntry_mem (p : Nat → Bool) :
    ∀ (l : List (Tick × Input)) (a : Tick × Input),
    bestEntry p l = some a → a ∈ l := by
  intro l
  induction l with
  | nil => intro a ha; cases ha
  | cons e l ih =>
    intro a ha
    rw [bestEntry_cons] at ha
    rcases hb : bestEntry p l with _ | b <;> rw [hb] at ha <;> dsimp only at ha
    · by_cases hp : p e.1 = true
      · rw [if_pos hp] at ha
        cases Option.some.inj ha
        exact List.mem_cons_self e l
      · rw [if_neg hp] at ha
        cases ha
    · by_cases hp : p e.1 = true
      · rw [if_pos hp] at ha
        by_cases hlt : b.1 < e.1
        · rw [if_pos hlt] at ha
          cases Option.some.inj ha
          exact List.mem_cons_self e l
        · rw [if_neg hlt] at ha
          rw [← Option.some.inj ha]
          exact List.mem_cons_of_mem e (ih b hb)
      · rw [if_neg hp] at ha
        rw [← Option.some.inj ha]
        exact List.mem_cons_of_mem e (ih b hb)

theorem bestEntry_congr (p q : Nat → Bool) (h : ∀ x, p x = q x) (l : List (Tick × Input)) :
    bestEntry p l = bestEntry q l := by
  have : p = q := funext h
  rw [this]

theorem bestEntry_filter_key (p k : Nat → Bool) :
    ∀ l : List (Tick × Input),
    bestEntry p (l.filter (fun e => k e.1)) = bestEntry (fun x => k x && p x) l := by
  intro l
  induction l with
  | nil => rfl
  | cons e l ih =>
    rw [List.filter_cons]
    by_cases hk : k e.1 = true
    · simp only [hk, if_true]
      rw [bestEntry_cons, bestEntry_cons, ih]
      rcases hb : bestEntry (fun x => k x && p x) l with _ | b <;>
        dsimp only <;> rw [hk, Bool.true_and]
    · have hk2 : k e.1 = false := by
        cases hkv : k e.1
        · rfl
        · exact absurd hkv hk
      simp only [hk2, Bool.false_eq_true, if_false]
      rw [ih, bestEntry_cons_false]
      rw [hk2, Bool.false_and]

/-- Splitting `bestEntry` over a disjunction of predicates whose satisfiers
are strictly ordered: the upper range wins whenever it is inhabited. -/
theorem bestEntry_split (p1 p2 : Nat → Bool)
    (hlt : ∀ x y, p1 x = true → p2 y = true → x < y) :
    ∀ l : List (Tick × Input),
    bestEntry (fun x => p1 x || p2 x) l
      = match bestEntry p2 l with
        | Option.some a => Option.some a
        | Option.none => bestEntry p1 l := by
  intro l
  induction l with
  | nil => rfl
  | cons e l ih =>
    by_cases h2 : p2 e.1 = true
    · have h1 : p1 e.1 = false := by
        cases h1v : p1 e.1
        · rfl
        · exact absurd (hlt e.1 e.1 h1v h2) (lt_irrefl e.1)
      rw [bestEntry_cons, bestEntry_cons (p := p2), ih]
      rcases hb2 : bestEntry p2 l with _ | b2
      · rcases hb1 : bestEntry p1 l with _ | b1
        · simp [h1, h2]
        · have hs1 : p1 b1.1 = true := bestEntry_sat p1 l b1 hb1
          simp [h1, h2, hlt b1.1 e.1 hs1 h2]
      · by_cases hlt2 : b2.1 < e.1
        · simp [h1, h2, hlt2]
        · simp [h1, h2, hlt2]
    · have h2f : p2 e.1 = false := by
        cases h2v : p2 e.1
        · rfl
        · exact absurd h2v h2
      rw [bestEntry_cons_false p2 e l h2f]
      by_cases h1 : p1 e.1 = true
      · rw [bestEntry_cons, bestEntry_cons (p := p1), ih]
        rcases hb2 : bestEntry p2 l with _ | b2
        · rcases hb1 : bestEntry p1 l with _ | b1
          · simp [h1, h2f]
          · simp [h1, h2f]
        · have hs2 : p2 b2.1 = true := bestEntry_sat p2 l b2 hb2
          have hn2 : ¬ b2.1 < e.1 := Nat.not_lt.mpr (Nat.le_of_lt (hlt e.1 b2.1 h1 hs2))
          simp [h1, h2f, hn2]
      · have h1f : p1 e.1 = false := by
          cases h1v : p1 e.1
          · rfl
          · exact absurd h1v h1
        have hPe : (p1 e.1 || p2 e.1) = false := by rw [h1f, h2f]; rfl
        rw [bestEntry_cons_false _ e l hPe, bestEntry_cons_false p1 e l h1f, ih]

/-- Over a list with no duplicate keys, `bestEntry` at an exact key agrees
with `find?`. -/
theorem bestEntry_eq_find (q : Tick) :
    ∀ l : List (Tick × Input), (l.map (fun e => e.1)).Nodup →
    bestEntry (fun x => x == q) l = l.find? (fun e => e.1 == q) := by
  intro l
  induction l with
  | nil => intro _; rfl
  | cons e l ih =>
    intro hnd
    rw [List.map_cons, List.nodup_cons] at hnd
    obtain ⟨hne, hnd2⟩ := hnd
    rw [bestEntry_cons, ih hnd2]
    by_cases hq : (e.1 == q) = true
    · rw [List.find?_cons_of_pos (p := fun e => e.1 == q) l hq]
      rcases hf : l.find? (fun e => e.1 == q) with _ | b
      · rw [hf]
        simp [hq]
      · exfalso
        have hbq : (b.1 == q) = true := List.find?_some (p := fun e : Tick × Input => e.1 == q) hf
        have hbm : b ∈ l := List.mem_of_find?_eq_some hf
        have heb : e.1 = b.1 := by
          rw [eq_of_beq hq, eq_of_beq hbq]
        exact hne (heb ▸ List.mem_map_of_mem (fun e => e.1) hbm)
    · have hqf : (e.1 == q) = false := by
        cases hqv : (e.1 == q)
        · rfl
        · exact absurd hqv hq
      rw [List.find?_cons_of_neg (p := fun e => e.1 == q) l hq]
      rcases hf : l.find? (fun e => e.1 == q) with _ | b <;> rw [hf] <;> simp [hqf]

/-- Over a list with no duplicate keys, the most recent entry at or before `q`
is the entry at `q` itself if present, else the most recent entry before `q`. -/
theorem bestEntry_le_claim (q : Tick) (l : List (Tick × Input))
    (hnd : (l.map (fun e => e.1)).Nodup) :
    bestEntry (fun x => decide (x ≤ q)) l
      = match l.find? (fun e => e.1 == q) with
        | Option.some a => Option.some a
        | Option.none => bestEntry (fun x => decide (x < q)) l := by
  have hpe : ∀ x, (decide (x < q) || (x == q)) = decide (x ≤ q) := by
    intro x
    by_cases h1 : x < q
    · have h2 : x ≤ q := Nat.le_of_lt h1
      rw [decide_eq_true h1, decide_eq_true h2]
      rfl
    · by_cases h2 : x = q
      · have h3 : x ≤ q := Nat.le_of_eq h2
        rw [decide_eq_true h3, Bool.or_eq_true_iff]
        exact Or.inr (beq_iff_eq.mpr h2)
      · have h3 : ¬ x ≤ q := fun hle => h1 (Nat.lt_of_le_of_ne hle h2)
        rw [decide_eq_false h1, decide_eq_false h3, Bool.false_or]
        exact beq_eq_false_iff_ne.mpr h2
  have hsplit := bestEntry_split (fun x => decide (x < q)) (fun x => x == q)
    (fun x y hx hy => by
      have hyq : y = q := eq_of_beq hy
      have hxq : x < q := of_decide_eq_true hx
      rw [hyq]
      exact hxq) l
  rw [bestEntry_congr _ _ hpe l] at hsplit
  rw [hsplit, bestEntry_eq_find q l hnd]

theorem step_record_nx (r : InReplay) (t : Tick) (i : Input) :
    (r.step (InputEvent.record t i)).nx = r.nx := by
  simp only [InReplay.step]
  by_cases h : t < r.nx
  · rw [if_pos h]
  · rw [if_neg h]

/-- A record event preserves the C1 invariant. -/
theorem input_inv_record (c : Connection) (r : InReplay) (t : Tick) (i : Input)
    (hinv : InputInv c r) :
    InputInv (c.applyInputEvent (InputEvent.record t i)) (r.step (InputEvent.record t i)) := by
  obtain ⟨he, hn, hl, hnd⟩ := hinv
  have happ : c.applyInputEvent (InputEvent.record t i)
      = { c with input_buffer := c.input_buffer.update_from_message t i } := rfl
  have hstep : r.step (InputEvent.record t i)
      = if t < r.nx then r
        else { r with
          accepted := ((t, i) :: r.accepted.filter (fun e => decide (e.1 ≠ t))) } := rfl
  rw [happ, hstep, InputBuffer.update_from_message, hn]
  by_cases ht : t < r.nx
  · rw [if_pos ht, if_pos ht]
    exact ⟨he, hn, hl, hnd⟩
  · rw [if_neg ht, if_neg ht]
    have hnt : r.nx ≤ t := Nat.le_of_not_lt ht
    refine ⟨?_, rfl, ?_, ?_⟩
    · show ((t, i) :: c.input_buffer.entries.filter (fun e => decide (e.1 ≠ t)))
        = ((t, i) :: r.accepted.filter (fun e => decide (e.1 ≠ t))).filter
            (fun e => decide (r.nx ≤ e.1))
      rw [List.filter_cons]
      simp only [decide_eq_true hnt, if_true]
      rw [he, List.filter_filter, List.filter_filter]
      congr 1
      apply List.filter_congr
      intro e _
      show (decide (e.1 ≠ t) && decide (r.nx ≤ e.1)) = (decide (r.nx ≤ e.1) && decide (e.1 ≠ t))
      exact Bool.and_comm _ _
    · show c.last_input = (bestEntry (fun x => decide (x < r.nx))
          ((t, i) :: r.accepted.filter (fun e => decide (e.1 ≠ t)))).map (fun e => e.2)
      rw [bestEntry_cons_false _ _ _ (decide_eq_false ht)]
      have h1 : bestEntry (fun x => decide (x < r.nx))
          (r.accepted.filter (fun e => decide (e.1 ≠ t)))
          = bestEntry (fun x => decide (x ≠ t) && decide (x < r.nx)) r.accepted :=
        bestEntry_filter_key (fun x => decide (x < r.nx)) (fun x => decide (x ≠ t)) r.accepted
      have h2 : ∀ x, (decide (x ≠ t) && decide (x < r.nx)) = decide (x < r.nx) := by
        intro x
        by_cases hx : x = t
        · rw [hx]
          simp [ht]
        · simp [hx]
      rw [h1, bestEntry_congr _ _ h2 r.accepted]
      exact hl
    · show ((((t, i) :: r.accepted.filter (fun e => decide (e.1 ≠ t))).map
        (fun e => e.1))).Nodup
      rw [List.map_cons, List.nodup_cons]
      constructor
      · intro hmem
        rcases List.mem_map.mp hmem with ⟨a, ha, hae⟩
        have hfa := (List.mem_filter.mp ha).2
        exact (of_decide_eq_true hfa) hae
      · exact List.Nodup.sublist
          (List.Sublist.map (fun e => e.1) (List.filter_sublist r.accepted)) hnd

/-- A query both answers with the most recent accepted record at or before
the queried tick and preserves the C1 invariant. -/
theorem input_inv_query (c : Connection) (r : InReplay) (q : Tick)
    (hinv : InputInv c r) (hq : r.nx ≤ q + 1) :
    (c.pop_input q).1
      = (bestEntry (fun x => decide (x ≤ q)) r.accepted).map (fun e => e.2) ∧
    InputInv (c.applyInputEvent (InputEvent.query q)) (r.step (InputEvent.query q)) := by
  obtain ⟨he, hn, hl, hnd⟩ := hinv
  have hkey : bestEntry (fun x => decide (x ≤ q))
      (r.accepted.filter (fun e => decide (r.nx ≤ e.1)))
      = bestEntry (fun x => decide (r.nx ≤ x) && decide (x ≤ q)) r.accepted :=
    bestEntry_filter_key (fun x => decide (x ≤ q)) (fun x => decide (r.nx ≤ x)) r.accepted
  have hrecv : (c.input_buffer.pop q).1
      = (bestEntry (fun x => decide (r.nx ≤ x) && decide (x ≤ q)) r.accepted).map
          (fun e => e.2) := by
    show (bestEntry (fun x => decide (x ≤ q)) c.input_buffer.entries).map (fun e => e.2) = _
    rw [he, hkey]
  have hpe : ∀ x, (decide (x < r.nx) || (decide (r.nx ≤ x) && decide (x ≤ q)))
      = decide (x ≤ q) := by
    intro x
    by_cases h1 : x < r.nx
    · have hle : x ≤ q := Nat.le_of_lt_succ (Nat.lt_of_lt_of_le h1 hq)
      rw [decide_eq_true h1, decide_eq_true hle, Bool.true_or]
    · have hge : r.nx ≤ x := Nat.le_of_not_lt h1
      rw [decide_eq_false h1, decide_eq_true hge, Bool.false_or, Bool.true_and]
  have hbe : bestEntry (fun x => decide (x ≤ q)) r.accepted
      = match bestEntry (fun x => decide (r.nx ≤ x) && decide (x ≤ q)) r.accepted with
        | Option.some a => Option.some a
        | Option.none => bestEntry (fun x => decide (x < r.nx)) r.accepted := by
    rw [← bestEntry_congr _ _ hpe r.accepted]
    exact bestEntry_split (fun x => decide (x < r.nx))
      (fun x => decide (r.nx ≤ x) && decide (x ≤ q))
      (fun x y hx hy => by
        have hy2 : (decide (r.nx ≤ y) && decide (y ≤ q)) = true := hy
        have h1 : x < r.nx := of_decide_eq_true hx
        have h2 : (decide (r.nx ≤ y)) = true := by
          cases hv : decide (r.nx ≤ y)
          · rw [hv] at hy2
            simp at hy2
          · rfl
        exact Nat.lt_of_lt_of_le h1 (of_decide_eq_true h2))
      r.accepted
  have hlt1 : ∀ x, decide (x < q + 1) = decide (x ≤ q) := by
    intro x
    by_cases h1 : x ≤ q
    · rw [decide_eq_true h1, decide_eq_true (Nat.lt_succ_of_le h1)]
    · rw [decide_eq_false h1, decide_eq_false (fun h2 => h1 (Nat.le_of_lt_succ h2))]
  have hpi : c.pop_input q
      = match (c.input_buffer.pop q).1 with
        | Option.some i =>
          (some i,
           { c with
             input_buffer := ((c.input_buffer.pop q).2),
             last_input := some i })
        | Option.none =>
          (c.last_input, { c with input_buffer := ((c.input_buffer.pop q).2) }) :=
    rfl
  have hent : ((c.input_buffer.pop q).2).entries
      = ({ r with nx := q + 1 }).accepted.filter
          (fun e => decide (({ r with nx := q + 1 } : InReplay).nx ≤ e.1)) := by
    show c.input_buffer.entries.filter (fun e => decide (q < e.1))
      = r.accepted.filter (fun e => decide (q + 1 ≤ e.1))
    rw [he, List.filter_filter]
    apply List.filter_congr
    intro e _
    show (decide (q < e.1) && decide (r.nx ≤ e.1)) = decide (q + 1 ≤ e.1)
    by_cases hx : q < e.1
    · rw [decide_eq_true (Nat.le_trans hq (Nat.succ_le_of_lt hx)), decide_eq_true hx,
        decide_eq_true (Nat.succ_le_of_lt hx), Bool.true_and]
    · rw [decide_eq_false hx, decide_eq_false (fun h2 => hx (Nat.lt_of_succ_le h2)),
        Bool.false_and]
  rw [hrecv] at hpi
  rcases hA : bestEntry (fun x => decide (r.nx ≤ x) && decide (x ≤ q)) r.accepted with _ | a
  · rw [hA] at hpi hbe
    dsimp only at hbe
    have hpi2 : c.pop_input q
        = (c.last_input, { c with input_buffer := ((c.input_buffer.pop q).2) }) := by
      rw [hpi]
      rfl
    constructor
    · rw [hpi2, hbe]
      exact hl
    · show InputInv (c.pop_input q).2 ({ r with nx := q + 1 })
      rw [hpi2]
      refine ⟨hent, rfl, ?_, hnd⟩
      show c.last_input
        = (bestEntry (fun x => decide (x < q + 1)) r.accepted).map (fun e => e.2)
      rw [bestEntry_congr _ _ hlt1 r.accepted, hbe]
      exact hl
  · rw [hA] at hpi hbe
    dsimp only at hbe
    have hpi2 : c.pop_input q
        = (Option.some a.2,
           { c with
             input_buffer := ((c.input_buffer.pop q).2),
             last_input := Option.some a.2 }) := by
      rw [hpi]
      rfl
    constructor
    · rw [hpi2, hbe]
      rfl
    · show InputInv (c.pop_input q).2 ({ r with nx := q + 1 })
      rw [hpi2]
      refine ⟨hent, rfl, ?_, hnd⟩
      show (Option.some a.2 : Option Input)
        = (bestEntry (fun x => decide (x < q + 1)) r.accepted).map (fun e => e.2)
      rw [bestEntry_congr _ _ hlt1 r.accepted, hbe]
      rfl

/-- The C1 invariant is preserved across any valid event history. -/
theorem input_inv_run : ∀ (h : List InputEvent) (c : Connection) (r : InReplay),
    InputInv c r → validQueriesFrom r.nx h = true →
    InputInv (runInputEvents c h) (h.foldl InReplay.step r) := by
  intro h
  induction h with
  | nil =>
    intro c r hinv _
    exact hinv
  | cons e rest ih =>
    intro c r hinv hv
    cases e with
    | record t i =>
      have hv2 : validQueriesFrom r.nx rest = true := hv
      have hv3 : validQueriesFrom ((r.step (InputEvent.record t i)).nx) rest = true := by
        rw [step_record_nx]
        exact hv2
      exact ih (c.applyInputEvent (InputEvent.record t i)) (r.step (InputEvent.record t i))
        (input_inv_record c r t i hinv) hv3
    | query t =>
      have hv2 : (decide (r.nx ≤ t + 1) && validQueriesFrom (t + 1) rest) = true := hv
      have hqd : r.nx ≤ t + 1 := by
        cases hd : decide (r.nx ≤ t + 1)
        · rw [hd] at hv2
          simp at hv2
        · exact of_decide_eq_true hd
      have hrest : validQueriesFrom (t + 1) rest = true := by
        cases hr : validQueriesFrom (t + 1) rest
        · rw [hr] at hv2
          simp at hv2
        · rfl
      exact ih (c.applyInputEvent (InputEvent.query t)) (r.step (InputEvent.query t))
        ((input_inv_query c r t hinv hqd).2) hrest

/-- Splitting validity of a history that ends in one query. -/
theorem validQueries_append_query :
    ∀ (h : List InputEvent) (q : Tick) (r : InReplay),
    validQueriesFrom r.nx (h ++ [InputEvent.query q]) = true →
    validQueriesFrom r.nx h = true ∧ (h.foldl InReplay.step r).nx ≤ q + 1 := by
  intro h
  induction h with
  | nil =>
    intro q r hv
    have hv2 : (decide (r.nx ≤ q + 1) && true) = true := hv
    have hqd : r.nx ≤ q + 1 := by
      cases hd : decide (r.nx ≤ q + 1)
      · rw [hd] at hv2
        simp at hv2
      · exact of_decide_eq_true hd
    exact ⟨rfl, hqd⟩
  | cons e rest ih =>
    intro q r hv
    cases e with
    | record t i =>
      have hv2 : validQueriesFrom r.nx (rest ++ [InputEvent.query q]) = true := hv
      have hv3 : validQueriesFrom ((r.step (InputEvent.record t i)).nx)
          (rest ++ [InputEvent.query q]) = true := by
        rw [step_record_nx]
        exact hv2
      obtain ⟨h1, h2⟩ := ih q (r.step (InputEvent.record t i)) hv3
      refine ⟨?_, h2⟩
      show validQueriesFrom r.nx rest = true
      rw [← step_record_nx r t i]
      exact h1
    | query t =>
      have hv2 : (decide (r.nx ≤ t + 1)
          && validQueriesFrom (t + 1) (rest ++ [InputEvent.query q])) = true := hv
      have hqd : (decide (r.nx ≤ t + 1)) = true := by
        cases hd : decide (r.nx ≤ t + 1)
        · rw [hd] at hv2
          simp at hv2
        · rfl
      have hrest : validQueriesFrom (t + 1) (rest ++ [InputEvent.query q]) = true := by
        cases hr : validQueriesFrom (t + 1) (rest ++ [InputEvent.query q])
        · rw [hr] at hv2
          simp at hv2
        · rfl
      obtain ⟨h1, h2⟩ := ih q (r.step (InputEvent.query t)) hrest
      have h1b : validQueriesFrom (t + 1) rest = true := h1
      refine ⟨?_, h2⟩
      show (decide (r.nx ≤ t + 1) && validQueriesFrom (t + 1) rest) = true
      rw [hqd, h1b]
      rfl

theorem claimAnswer_eq (h : List InputEvent) (q : Tick) :
    claimAnswer h q
      = match (inReplay h).accepted.find? (fun e => e.1 == q) with
        | Option.some e => Option.some e.2
        | Option.none =>
          (bestEntry (fun x => decide (x < q)) (inReplay h).accepted).map (fun e => e.2) := rfl

/-- Over any valid history starting from a fresh input state, the connection
answers a final query exactly as the claim describes. -/
theorem run_claim_answer (h : List InputEvent) (q : Tick) (c : Connection)
    (hc : c.input_buffer = InputBuffer.empty ∧ c.last_input = Option.none)
    (hv : validQueriesFrom 0 (h ++ [InputEvent.query q]) = true) :
    ((runInputEvents c h).pop_input q).1 = claimAnswer h q := by
  obtain ⟨hb, hli⟩ := hc
  have hinv0 : InputInv c InReplay.init := by
    refine ⟨?_, ?_, ?_, List.nodup_nil⟩
    · rw [hb]
      rfl
    · rw [hb]
      rfl
    · rw [hli]
      rfl
  have hv0 : validQueriesFrom InReplay.init.nx (h ++ [InputEvent.query q]) = true := hv
  obtain ⟨hvh, hnx⟩ := validQueries_append_query h q InReplay.init hv0
  have hinv := input_inv_run h c InReplay.init hinv0 hvh
  have hans := (input_inv_query (runInputEvents c h) (inReplay h) q hinv hnx).1
  have hnd : ((inReplay h).accepted.map (fun e => e.1)).Nodup := hinv.2.2.2
  rw [hans, claimAnswer_eq, bestEntry_le_claim q (inReplay h).accepted hnd]
  rcases hf : (inReplay h).accepted.find? (fun e => e.1 == q) with _ | a <;> rw [hf] <;> simp

/-- C1: for every connected peer, `ConnectionManager::pop_inputs(tick)` yields
exactly one entry, whose input is the one recorded for that tick if present,
else the most recently recorded input for an earlier tick, else none - after
arbitrary interleavings of out-of-order input arrival (each peer evolving
through its own record/query history from a fresh input state). -/
theorem pop_inputs_one_entry_with_fallback
    (hs : List (ClientId × List InputEvent)) (c0 : Connection) (q : Tick)
    (m : ConnectionManager)
    (hc0 : c0.input_buffer = InputBuffer.empty ∧ c0.last_input = Option.none)
    (hvalid : ∀ p ∈ hs, validQueriesFrom 0 (p.2 ++ [InputEvent.query q]) = true)
    (hm : m.connections = hs.map (fun p => (p.1, runInputEvents c0 p.2))) :
    (m.pop_inputs q).1 = hs.map (fun p => (claimAnswer p.2 q, p.1)) := by
  show (m.connections.map (fun p => ((p.2.pop_input q).1, p.1))) = _
  rw [hm, List.map_map]
  apply List.map_congr_left
  intro p hp
  show (((runInputEvents c0 p.2).pop_input q).1, p.1) = (claimAnswer p.2 q, p.1)
  rw [run_claim_answer p.2 q c0 ⟨hc0.1, hc0.2⟩ (hvalid p hp)]

/-- Witness for C1 on `inputExampleManager` at query tick 6. -/
theorem pop_inputs_one_entry_with_fallback_witness :
    (inputExampleManager.pop_inputs 6).1
      = inputHs.map (fun p => (claimAnswer p.2 6, p.1)) :=
  pop_inputs_one_entry_with_fallback inputHs exampleConnection 6 inputExampleManager
    (by decide) (by decide) rfl

end Lightyear
